import Mathlib

/-!
Verification of the Tool Registry & Lazy-Dispatch Engine of the devrk-mcp
repository.  The TypeScript source is shallowly embedded: JS values crossing
the dispatcher boundary are modelled by the `Json` type (JS numbers restricted
to integers), `JSON.stringify(v, null, 2)` and a JSON parser are modelled over
`List Char`, Zod validators are modelled by explicit parse functions, and the
request handlers of `src/mcp-server.ts` / `src/index.ts` (stdio and HTTP
variants of `servers/index.ts` in this snapshot) become total Lean functions.
-/

namespace DevrkMcp

mutual
/-- JSON-like JS values.  Mutual inductives are used instead of nested `List`
so that structural recursion and induction stay simple.  JS numbers are
restricted to integers in this embedding. -/
inductive Json where
  | null : Json
  | bool (b : Bool) : Json
  | num (n : Int) : Json
  | str (s : String) : Json
  | arr (xs : JsonArr) : Json
  | obj (fs : JsonObj) : Json
inductive JsonArr where
  | nil : JsonArr
  | cons (hd : Json) (tl : JsonArr) : JsonArr
inductive JsonObj where
  | nil : JsonObj
  | cons (k : String) (v : Json) (tl : JsonObj) : JsonObj
end

/-- Two-space indentation used by `JSON.stringify(v, null, 2)`. -/
def jIndent (lv : Nat) : List Char := List.replicate (2 * lv) ' '

/-- Character for a decimal digit `d < 10`. -/
def digitChar (d : Nat) : Char := Char.ofNat (48 + d)

/-- Character for a hex digit `d < 16`, lowercase as emitted by the
`\u00XX` escapes of `JSON.stringify`. -/
def hexDigitChar (d : Nat) : Char :=
  if d < 10 then Char.ofNat (48 + d) else Char.ofNat (87 + d)

/-- Decimal digit emitter; the fuel argument only bounds recursion depth and
any fuel above the number of digits gives the same output. -/
def natCharsAux : Nat → Nat → List Char
  | 0, _ => []
  | fuel + 1, n =>
      if n < 10 then [digitChar n]
      else natCharsAux fuel (n / 10) ++ [digitChar (n % 10)]

/-- Decimal digit characters of `n`, most significant first; `0 ↦ "0"`. -/
def natChars (n : Nat) : List Char := natCharsAux (n + 1) n

/-- Decimal representation  of an integer, as JS `Number..toString` produces
for integral values. -/
def intChars (n : Int) : List Char :=
  if n < 0 then '-' :: natChars n.natAbs else natChars n.natAbs

/-- String-character escaping of `JSON.stringify` (ECMA-262 QuoteJSONString):
quote and backslash are escaped, the named control escapes are used for
\b \t \n \f \r, all other control characters become `\u00XX`. -/
def escChar (c : Char) : List Char :=
  if c = '"' then ['\\', '"']
  else if c = '\\' then ['\\', '\\']
  else if c = '\x08' then ['\\', 'b']
  else if c = '\x09' then ['\\', 't']
  else if c = '\x0a' then ['\\', 'n']
  else if c = '\x0c' then ['\\', 'f']
  else if c = '\x0d' then ['\\', 'r']
  else if c.toNat < 32 then
    '\\' :: 'u' :: '0' :: '0' :: hexDigitChar (c.toNat / 16) :: hexDigitChar (c.toNat % 16) :: []
  else [c]

/-- Escape every character of a string body. -/
def escStr : List Char → List Char
  | [] => []
  | c :: r => escChar c ++ escStr r

mutual
/-- `JSON.stringify(v, null, 2)` at indentation level `lv`, as a character
list. -/
def strJson (lv : Nat) : Json → List Char
  | .num n => intChars n
  | .null => 'n' :: 'u' :: 'l' :: 'l' :: []
  | .bool true => 't' :: 'r' :: 'u' :: 'e' :: []
  | .bool false => 'f' :: 'a' :: 'l' :: 's' :: 'e' :: []
  | .str s => '"' :: (escStr s.data ++ ['"'])
  | .arr .nil => ['[', ']']
  | .arr (.cons x tl) =>
      '[' :: '\n' :: (strArrItems (lv + 1) (.cons x tl) ++ '\n' :: (jIndent lv ++ [']']))
  | .obj .nil => ['\x7b', '\x7d']
  | .obj (.cons k v tl) =>
      '\x7b' :: '\n' :: (strObjItems (lv + 1) (.cons k v tl) ++ '\n' :: (jIndent lv ++ ['\x7d']))
/-- Array elements, one per line, comma separated. -/
def strArrItems (lv : Nat) : JsonArr → List Char
  | .nil => []
  | .cons x .nil => jIndent lv ++ strJson lv x
  | .cons x (.cons y tl) =>
      jIndent lv ++ (strJson lv x ++ ',' :: '\n' :: strArrItems lv (.cons y tl))
/-- Object members, one per line, `"key": value`, comma separated. -/
def strObjItems (lv : Nat) : JsonObj → List Char
  | .nil => []
  | .cons k v .nil =>
      jIndent lv ++ ('"' :: (escStr k.data ++ '"' :: ':' :: ' ' :: strJson lv v))
  | .cons k v (.cons k2 v2 tl) =>
      jIndent lv ++ ('"' :: (escStr k.data ++ '"' :: ':' :: ' ' :: strJson lv v)) ++
        ',' :: '\n' :: strObjItems lv (.cons k2 v2 tl)
end

/-- The serialized form used by the dispatcher: `JSON.stringify(result, null, 2)`. -/
def jstringify (v : Json) : String := String.mk (strJson 0 v)

mutual
/-- Structural node count of a JSON value, used as parser fuel bound. -/
def nodesJ : Json → Nat
  | .arr xs => nodesA xs + 1
  | .obj fs => nodesO fs + 1
  | _ => 1
def nodesA : JsonArr → Nat
  | .nil => 1
  | .cons x tl => nodesJ x + nodesA tl + 1
def nodesO : JsonObj → Nat
  | .nil => 1
  | .cons _ v tl => nodesJ v + nodesO tl + 1
end

/-- JSON insignificant whitespace. -/
def isWsChar (c : Char) : Bool := c = ' ' || c = '\n' || c = '\t' || c = '\r'

/-- Skip leading whitespace. -/
def skipWs : List Char → List Char
  | [] => []
  | c :: r => if isWsChar c then skipWs r else c :: r

def isDigitChar (c : Char) : Bool := 48 ≤ c.toNat && c.toNat ≤ 57

def isHexChar (c : Char) : Bool :=
  isDigitChar c || (97 ≤ c.toNat && c.toNat ≤ 102) || (65 ≤ c.toNat && c.toNat ≤ 70)

def digitVal (c : Char) : Nat := c.toNat - 48

def hexVal (c : Char) : Nat :=
  if c.toNat ≤ 57 then c.toNat - 48
  else if c.toNat ≤ 70 then c.toNat - 55
  else c.toNat - 87

/-- Split a maximal run of decimal digits off the front. -/
def takeDigits : List Char → (List Char × List Char)
  | [] => ([], [])
  | c :: r =>
      if isDigitChar c then
        let p := takeDigits r
        (c :: p.1, p.2)
      else ([], c :: r)

def digitsToNat (l : List Char) : Nat := l.foldl (fun a c => a * 10 + digitVal c) 0

/-- Parse a nonempty run of decimal digits into a natural number. -/
def parseNatNum (l : List Char) : Option (Nat × List Char) :=
  match takeDigits l with
  | ([], _) => none
  | (ds, rest) => some (digitsToNat ds, rest)

/-- Prepend a character to the string being accumulated by `parseStrChars`. -/
def consStrRes (c : Char) : Option (List Char × List Char) → Option (List Char × List Char)
  | none => none
  | some (cs, rest) => some (c :: cs, rest)

/-- Parse the body of a JSON string up to and including the closing quote,
undoing the escapes produced by `escChar`. -/
def parseStrChars : List Char → Option (List Char × List Char)
  | [] => none
  | c :: r =>
    if c = '"' then some ([], r)
    else if c = '\\' then
      match r with
      | [] => none
      | e :: r2 =>
        if e = '"' then consStrRes '"' (parseStrChars r2)
        else if e = '\\' then consStrRes '\\' (parseStrChars r2)
        else if e = 'b' then consStrRes '\x08' (parseStrChars r2)
        else if e = 't' then consStrRes '\x09' (parseStrChars r2)
        else if e = 'n' then consStrRes '\x0a' (parseStrChars r2)
        else if e = 'f' then consStrRes '\x0c' (parseStrChars r2)
        else if e = 'r' then consStrRes '\x0d' (parseStrChars r2)
        else if e = 'u' then
          match r2 with
          | h1 :: h2 :: h3 :: h4 :: r3 =>
            if isHexChar h1 && isHexChar h2 && isHexChar h3 && isHexChar h4 then
              consStrRes
                (Char.ofNat (((hexVal h1 * 16 + hexVal h2) * 16 + hexVal h3) * 16 + hexVal h4))
                (parseStrChars r3)
            else none
          | _ => none
        else none
    else consStrRes c (parseStrChars r)

mutual
/-- Fueled JSON value parser; fuel decreases on every recursive call, a fuel
of one more than the node count of the value suffices. -/
def parseVal : Nat → List Char → Option (Json × List Char)
  | 0, _ => none
  | fuel + 1, input =>
    match skipWs input with
    | [] => none
    | c :: r =>
      if c = 'n' then
        match r with
        | 'u' :: 'l' :: 'l' :: r2 => some (.null, r2)
        | _ => none
      else if c = 't' then
        match r with
        | 'r' :: 'u' :: 'e' :: r2 => some (.bool true, r2)
        | _ => none
      else if c = 'f' then
        match r with
        | 'a' :: 'l' :: 's' :: 'e' :: r2 => some (.bool false, r2)
        | _ => none
      else if c = '"' then
        match parseStrChars r with
        | some (cs, rest) => some (.str (String.mk cs), rest)
        | none => none
      else if c = '[' then
        match skipWs r with
        | [] => none
        | c2 :: r2 =>
          if c2 = ']' then some (.arr .nil, r2)
          else
            match parseArrItems fuel (c2 :: r2) with
            | some (xs, rest) => some (.arr xs, rest)
            | none => none
      else if c = '\x7b' then
        match skipWs r with
        | [] => none
        | c2 :: r2 =>
          if c2 = '\x7d' then some (.obj .nil, r2)
          else
            match parseObjItems fuel (c2 :: r2) with
            | some (fs, rest) => some (.obj fs, rest)
            | none => none
      else if c = '-' then
        match parseNatNum r with
        | some (m, rest) => some (.num (-(m : Int)), rest)
        | none => none
      else if isDigitChar c then
        match parseNatNum (c :: r) with
        | some (m, rest) => some (.num (m : Int), rest)
        | none => none
      else none
/-- Parse one or more comma separated array elements and the closing `]`. -/
def parseArrItems : Nat → List Char → Option (JsonArr × List Char)
  | 0, _ => none
  | fuel + 1, input =>
    match parseVal fuel input with
    | none => none
    | some (v, rest) =>
      match skipWs rest with
      | [] => none
      | c2 :: r2 =>
        if c2 = ',' then
          match parseArrItems fuel r2 with
          | some (tl, rest2) => some (.cons v tl, rest2)
          | none => none
        else if c2 = ']' then some (.cons v .nil, r2)
        else none
/-- Parse one or more comma separated object members and the closing brace. -/
def parseObjItems : Nat → List Char → Option (JsonObj × List Char)
  | 0, _ => none
  | fuel + 1, input =>
    match skipWs input with
    | [] => none
    | c0 :: r =>
      if c0 = '"' then
        match parseStrChars r with
        | none => none
        | some (kcs, r1) =>
          match skipWs r1 with
          | [] => none
          | c1 :: r2 =>
            if c1 = ':' then
              match parseVal fuel r2 with
              | none => none
              | some (v, rest) =>
                match skipWs rest with
                | [] => none
                | c2 :: r3 =>
                  if c2 = ',' then
                    match parseObjItems fuel r3 with
                    | some (tl, rest2) => some (.cons (String.mk kcs) v tl, rest2)
                    | none => none
                  else if c2 = '\x7d' then some (.cons (String.mk kcs) v .nil, r3)
                  else none
            else none
      else none
end

/-- Top level `JSON.parse`-style entry point: the whole input must be one
value followed only by whitespace. -/
def parseJson (s : String) : Option Json :=
  match parseVal (s.length + 1) s.data with
  | some (v, rest) => if skipWs rest = [] then some v else none
  | none => none

/-- True when the input does not begin with a decimal digit, so that a
number parsed in front of it cannot swallow part of it. -/
def noDigitHead : List Char → Bool
  | [] => true
  | c :: _ => !(isDigitChar c)

theorem char_toNat_ofNat (n : Nat) (h : n < 55296) : (Char.ofNat n).toNat = n := by
  unfold Char.ofNat
  rw [dif_pos (Or.inl h)]
  simp [Char.ofNatAux, Char.toNat, UInt32.toNat, UInt32.ofNat', BitVec.toNat_ofNat]

theorem char_ofNat_toNat (c : Char) (h : c.toNat < 55296) : Char.ofNat c.toNat = c := by
  apply Char.eq_of_val_eq
  unfold Char.ofNat
  rw [dif_pos (Or.inl h)]
  apply UInt32.eq_of_val_eq
  apply Fin.ext
  simp [Char.ofNatAux, Char.toNat, UInt32.toNat, UInt32.ofNat', BitVec.toNat_ofNat]

theorem char_toNat_inj {a b : Char} (h : a.toNat = b.toNat) : a = b := by
  apply Char.eq_of_val_eq
  apply UInt32.eq_of_val_eq
  exact Fin.ext h

theorem skipWs_cons_not_ws {c : Char} (h : isWsChar c = false) (l : List Char) :
    skipWs (c :: l) = c :: l := by
  simp [skipWs, h]

theorem skipWs_cons_ws {c : Char} (h : isWsChar c = true) (l : List Char) :
    skipWs (c :: l) = skipWs l := by
  simp [skipWs, h]

theorem skipWs_replicate_space (k : Nat) (l : List Char) :
    skipWs (List.replicate k ' ' ++ l) = skipWs l := by
  induction k with
  | zero => rfl
  | succ k ih => simpa [List.replicate_succ, skipWs, isWsChar] using ih

theorem skipWs_indent (n : Nat) (l : List Char) :
    skipWs (jIndent n ++ l) = skipWs l :=
  skipWs_replicate_space (2 * n) l

theorem skipWs_newline (l : List Char) : skipWs ('\n' :: l) = skipWs l := by
  simp [skipWs, isWsChar]

theorem skipWs_space (l : List Char) : skipWs (' ' :: l) = skipWs l := by
  simp [skipWs, isWsChar]

theorem skipWs_idem (l : List Char) : skipWs (skipWs l) = skipWs l := by
  induction l with
  | nil => rfl
  | cons c r ih =>
      by_cases h : isWsChar c = true
      · rw [skipWs_cons_ws h]; exact ih
      · rw [skipWs_cons_not_ws (by simpa using h),
          skipWs_cons_not_ws (by simpa using h)]

theorem digitChar_toNat {d : Nat} (h : d < 10) : (digitChar d).toNat = 48 + d :=
  char_toNat_ofNat (48 + d) (by omega)

theorem isDigitChar_digitChar {d : Nat} (h : d < 10) : isDigitChar (digitChar d) = true := by
  simp [isDigitChar, digitChar_toNat h]; omega

theorem digitVal_digitChar {d : Nat} (h : d < 10) : digitVal (digitChar d) = d := by
  simp [digitVal, digitChar_toNat h]

theorem digit_not_ws {c : Char} (h : isDigitChar c = true) : isWsChar c = false := by
  simp only [isDigitChar, Bool.and_eq_true, decide_eq_true_eq] at h
  simp only [isWsChar, Bool.or_eq_false_iff, decide_eq_false_iff_not]
  refine ⟨⟨⟨?_, ?_⟩, ?_⟩, ?_⟩ <;>
    · intro hc; subst hc; revert h; decide

theorem natCharsAux_digits (fuel : Nat) :
    ∀ n, ∀ c ∈ natCharsAux fuel n, isDigitChar c = true := by
  induction fuel with
  | zero => intro n c hc; simp [natCharsAux] at hc
  | succ fuel ih =>
      intro n c hc
      unfold natCharsAux at hc
      by_cases h : n < 10
      · rw [if_pos h] at hc
        simp only [List.mem_singleton] at hc
        subst hc
        exact isDigitChar_digitChar h
      · rw [if_neg h] at hc
        rcases List.mem_append.mp hc with h1 | h2
        · exact ih (n / 10) c h1
        · simp only [List.mem_singleton] at h2
          subst h2
          exact isDigitChar_digitChar (Nat.mod_lt n (by omega))

theorem natChars_digits (n : Nat) : ∀ c ∈ natChars n, isDigitChar c = true :=
  natCharsAux_digits (n + 1) n

theorem natChars_ne_nil (n : Nat) : natChars n ≠ [] := by
  unfold natChars natCharsAux
  by_cases h : n < 10
  · simp [h]
  · rw [if_neg h]
    simp

theorem takeDigits_append {digs suffix : List Char}
    (hdigs : ∀ c ∈ digs, isDigitChar c = true)
    (hsuf : noDigitHead suffix = true) :
    takeDigits (digs ++ suffix) = (digs, suffix) := by
  induction digs with
  | nil =>
      simp only [List.nil_append]
      cases suffix with
      | nil => rfl
      | cons c r =>
          simp only [noDigitHead, Bool.not_eq_true'] at hsuf
          simp [takeDigits, hsuf]
  | cons c digs ih =>
      have hcd : isDigitChar c = true := hdigs c (by simp)
      have htail := ih (fun x hx => hdigs x (by simp [hx]))
      simp [takeDigits, hcd, htail]

theorem digitsToNat_append_one (l : List Char) (c : Char) :
    digitsToNat (l ++ [c]) = digitsToNat l * 10 + digitVal c := by
  simp [digitsToNat, List.foldl_append]

theorem digitsToNat_natCharsAux (fuel : Nat) :
    ∀ n, n < fuel → digitsToNat (natCharsAux fuel n) = n := by
  induction fuel with
  | zero => intro n hn; omega
  | succ fuel ih =>
      intro n hn
      unfold natCharsAux
      by_cases h : n < 10
      · rw [if_pos h]
        simp [digitsToNat, digitVal_digitChar h]
      · rw [if_neg h, digitsToNat_append_one,
          ih (n / 10) (by omega), digitVal_digitChar (Nat.mod_lt n (by omega))]
        omega

theorem digitsToNat_natChars (n : Nat) : digitsToNat (natChars n) = n :=
  digitsToNat_natCharsAux (n + 1) n (by omega)

theorem parseNatNum_round (n : Nat) (rest : List Char) (hrest : noDigitHead rest = true) :
    parseNatNum (natChars n ++ rest) = some (n, rest) := by
  unfold parseNatNum
  rw [takeDigits_append (natChars_digits n) hrest]
  have := natChars_ne_nil n
  cases hm : natChars n with
  | nil => exact absurd hm this
  | cons c cs =>
      show some (digitsToNat (c :: cs), rest) = some (n, rest)
      rw [← hm, digitsToNat_natChars]

theorem hexVal_hexDigitChar {d : Nat} (h : d < 16) : hexVal (hexDigitChar d) = d := by
  unfold hexVal hexDigitChar
  by_cases h10 : d < 10
  · rw [if_pos h10, char_toNat_ofNat (48 + d) (by omega), if_pos (by omega)]
    omega
  · rw [if_neg h10, char_toNat_ofNat (87 + d) (by omega), if_neg (by omega),
      if_neg (by omega)]
    omega

theorem isHexChar_hexDigitChar {d : Nat} (h : d < 16) : isHexChar (hexDigitChar d) = true := by
  unfold isHexChar isDigitChar hexDigitChar
  by_cases h10 : d < 10
  · rw [if_pos h10, char_toNat_ofNat (48 + d) (by omega)]
    simp; omega
  · rw [if_neg h10, char_toNat_ofNat (87 + d) (by omega)]
    simp; omega

theorem parseStrChars_round (cs rest : List Char) :
    parseStrChars (escStr cs ++ '"' :: rest) = some (cs, rest) := by
  induction cs with
  | nil =>
      rw [show escStr [] ++ '"' :: rest = '"' :: rest from rfl, parseStrChars.eq_def]
      simp
  | cons c cs ih =>
      show parseStrChars ((escChar c ++ escStr cs) ++ '"' :: rest) = some (c :: cs, rest)
      rw [List.append_assoc]
      unfold escChar
      split_ifs with h1 h2 h3 h4 h5 h6 h7 h8
      · subst h1; rw [parseStrChars.eq_def]; simp [consStrRes, ih]
      · subst h2; rw [parseStrChars.eq_def]; simp [consStrRes, ih]
      · subst h3; rw [parseStrChars.eq_def]; simp [consStrRes, ih]
      · subst h4; rw [parseStrChars.eq_def]; simp [consStrRes, ih]
      · subst h5; rw [parseStrChars.eq_def]; simp [consStrRes, ih]
      · subst h6; rw [parseStrChars.eq_def]; simp [consStrRes, ih]
      · subst h7; rw [parseStrChars.eq_def]; simp [consStrRes, ih]
      · have hdiv : c.toNat / 16 < 16 := by omega
        have hmod : c.toNat % 16 < 16 := by omega
        simp only [List.cons_append, List.nil_append]
        rw [parseStrChars.eq_def]
        simp only [reduceCtorEq, reduceIte, Char.reduceEq]
        rw [if_pos (by simp [isHexChar_hexDigitChar hdiv, isHexChar_hexDigitChar hmod]; decide)]
        have hv : ((hexVal '0' * 16 + hexVal '0') * 16 +
            hexVal (hexDigitChar (c.toNat / 16))) * 16 +
            hexVal (hexDigitChar (c.toNat % 16)) = c.toNat := by
          rw [hexVal_hexDigitChar hdiv, hexVal_hexDigitChar hmod]
          have h0 : hexVal '0' = 0 := by decide
          rw [h0]; omega
        rw [hv, char_ofNat_toNat c (by omega), ih]
        rfl
      · simp only [List.cons_append, List.nil_append]
        rw [parseStrChars.eq_def]
        simp only [h1, h2, if_false, ite_false]
        rw [ih]
        rfl

theorem isDigitChar_toNat {c : Char} (h : isDigitChar c = true) :
    48 ≤ c.toNat ∧ c.toNat ≤ 57 := by
  simpa [isDigitChar] using h

theorem nodesJ_pos (v : Json) : 0 < nodesJ v := by
  cases v <;> simp [nodesJ]

theorem nodesA_pos (xs : JsonArr) : 0 < nodesA xs := by
  cases xs <;> simp [nodesA]

theorem nodesO_pos (fs : JsonObj) : 0 < nodesO fs := by
  cases fs <;> simp [nodesO]

/-- The first character of any serialized JSON value: it is not whitespace
and not one of the closing or separating characters the parser looks for. -/
theorem strJson_head (lv : Nat) (v : Json) :
    ∃ c cs, strJson lv v = c :: cs ∧ isWsChar c = false ∧
      c ≠ ']' ∧ c ≠ '\x7d' ∧ c ≠ ',' := by
  cases v with
  | null => exact ⟨'n', _, rfl, by decide, by decide, by decide, by decide⟩
  | bool b =>
      cases b
      · exact ⟨'f', _, rfl, by decide, by decide, by decide, by decide⟩
      · exact ⟨'t', _, rfl, by decide, by decide, by decide, by decide⟩
  | num n =>
      show ∃ c cs, intChars n = c :: cs ∧ _
      unfold intChars
      by_cases h : n < 0
      · rw [if_pos h]
        exact ⟨'-', _, rfl, by decide, by decide, by decide, by decide⟩
      · rw [if_neg h]
        cases hm : natChars n.natAbs with
        | nil => exact absurd hm (natChars_ne_nil _)
        | cons c cs =>
            have hc : isDigitChar c = true := natChars_digits _ c (by rw [hm]; simp)
            have hn := isDigitChar_toNat hc
            refine ⟨c, cs, rfl, digit_not_ws hc, ?_, ?_, ?_⟩ <;>
              · intro he; rw [he] at hn; revert hn; decide
  | str s => exact ⟨'"', _, rfl, by decide, by decide, by decide, by decide⟩
  | arr xs =>
      cases xs
      · exact ⟨'[', _, rfl, by decide, by decide, by decide, by decide⟩
      · exact ⟨'[', _, rfl, by decide, by decide, by decide, by decide⟩
  | obj fs =>
      cases fs
      · exact ⟨'\x7b', _, rfl, by decide, by decide, by decide, by decide⟩
      · exact ⟨'\x7b', _, rfl, by decide, by decide, by decide, by decide⟩

/-- Skipping whitespace in front of a serialized value changes nothing. -/
theorem skipWs_strJson (lv : Nat) (v : Json) (rest : List Char) :
    skipWs (strJson lv v ++ rest) = strJson lv v ++ rest := by
  obtain ⟨c, cs, he, hws, -, -, -⟩ := strJson_head lv v
  rw [he, List.cons_append, skipWs_cons_not_ws hws]

theorem parseVal_skipWs (fuel : Nat) (input : List Char) :
    parseVal fuel (skipWs input) = parseVal fuel input := by
  cases fuel with
  | zero => rfl
  | succ fuel =>
      show parseVal (fuel + 1) (skipWs input) = parseVal (fuel + 1) input
      rw [parseVal, parseVal, skipWs_idem]

theorem parseArrItems_skipWs (fuel : Nat) (input : List Char) :
    parseArrItems fuel (skipWs input) = parseArrItems fuel input := by
  cases fuel with
  | zero => rfl
  | succ fuel =>
      rw [parseArrItems, parseArrItems, parseVal_skipWs]

theorem parseObjItems_skipWs (fuel : Nat) (input : List Char) :
    parseObjItems fuel (skipWs input) = parseObjItems fuel input := by
  cases fuel with
  | zero => rfl
  | succ fuel =>
      rw [parseObjItems, parseObjItems, skipWs_idem]

theorem strJson_num_eq (lv : Nat) (n : Int) : strJson lv (.num n) = intChars n := rfl

theorem strJson_str_eq (lv : Nat) (s : String) :
    strJson lv (.str s) = '"' :: (escStr s.data ++ ['"']) := rfl

theorem strJson_arr_cons_eq (lv : Nat) (x : Json) (tl : JsonArr) :
    strJson lv (.arr (.cons x tl)) =
      '[' :: '\n' :: (strArrItems (lv + 1) (.cons x tl) ++ '\n' :: (jIndent lv ++ [']'])) := rfl

theorem strJson_obj_cons_eq (lv : Nat) (k : String) (v : Json) (tl : JsonObj) :
    strJson lv (.obj (.cons k v tl)) =
      '\x7b' :: '\n' ::
        (strObjItems (lv + 1) (.cons k v tl) ++ '\n' :: (jIndent lv ++ ['\x7d'])) := rfl

theorem strArrItems_one (lv : Nat) (x : Json) :
    strArrItems lv (.cons x .nil) = jIndent lv ++ strJson lv x := rfl

theorem strArrItems_more (lv : Nat) (x y : Json) (tl : JsonArr) :
    strArrItems lv (.cons x (.cons y tl)) =
      jIndent lv ++ (strJson lv x ++ ',' :: '\n' :: strArrItems lv (.cons y tl)) := rfl

theorem strObjItems_one (lv : Nat) (k : String) (v : Json) :
    strObjItems lv (.cons k v .nil) =
      jIndent lv ++ ('"' :: (escStr k.data ++ '"' :: ':' :: ' ' :: strJson lv v)) := rfl

theorem strObjItems_more (lv : Nat) (k : String) (v : Json) (k2 : String) (v2 : Json)
    (tl : JsonObj) :
    strObjItems lv (.cons k v (.cons k2 v2 tl)) =
      jIndent lv ++ ('"' :: (escStr k.data ++ '"' :: ':' :: ' ' :: strJson lv v)) ++
        ',' :: '\n' :: strObjItems lv (.cons k2 v2 tl) := rfl

theorem digit_ne {c : Char} (h : isDigitChar c = true) {x : Char}
    (hx : x.toNat < 48 ∨ 57 < x.toNat) : c ≠ x := by
  intro he
  subst he
  have := isDigitChar_toNat h
  omega

theorem parseVal_quote (fuel : Nat) (X : List Char) :
    parseVal (fuel + 1) ('"' :: X) =
      match parseStrChars X with
      | some (cs, rest) => some (.str (String.mk cs), rest)
      | none => none := rfl

theorem parseVal_dash (fuel : Nat) (X : List Char) :
    parseVal (fuel + 1) ('-' :: X) =
      match parseNatNum X with
      | some (m, rest) => some (.num (-(m : Int)), rest)
      | none => none := rfl

theorem parseVal_lbrack (fuel : Nat) (X : List Char) :
    parseVal (fuel + 1) ('[' :: X) =
      match skipWs X with
      | [] => none
      | c2 :: r2 =>
        if c2 = ']' then some (.arr .nil, r2)
        else
          match parseArrItems fuel (c2 :: r2) with
          | some (xs, rest) => some (.arr xs, rest)
          | none => none := rfl

theorem parseVal_lbrace (fuel : Nat) (X : List Char) :
    parseVal (fuel + 1) ('\x7b' :: X) =
      match skipWs X with
      | [] => none
      | c2 :: r2 =>
        if c2 = '\x7d' then some (.obj .nil, r2)
        else
          match parseObjItems fuel (c2 :: r2) with
          | some (fs, rest) => some (.obj fs, rest)
          | none => none := rfl

theorem parseVal_digit (fuel : Nat) (c : Char) (X : List Char) (h : isDigitChar c = true) :
    parseVal (fuel + 1) (c :: X) =
      match parseNatNum (c :: X) with
      | some (m, rest) => some (.num (m : Int), rest)
      | none => none := by
  rw [parseVal, skipWs_cons_not_ws (digit_not_ws h)]
  simp only [if_neg (digit_ne h (x := 'n') (Or.inr (by decide))),
    if_neg (digit_ne h (x := 't') (Or.inr (by decide))),
    if_neg (digit_ne h (x := 'f') (Or.inr (by decide))),
    if_neg (digit_ne h (x := '"') (Or.inl (by decide))),
    if_neg (digit_ne h (x := '[') (Or.inr (by decide))),
    if_neg (digit_ne h (x := '\x7b') (Or.inr (by decide))),
    if_neg (digit_ne h (x := '-') (Or.inl (by decide))), h, if_true]

theorem skipWs_rbrack (l : List Char) : skipWs (']' :: l) = ']' :: l := rfl

theorem skipWs_rbrace (l : List Char) : skipWs ('\x7d' :: l) = '\x7d' :: l := rfl

theorem skipWs_comma (l : List Char) : skipWs (',' :: l) = ',' :: l := rfl

theorem skipWs_colon (l : List Char) : skipWs (':' :: l) = ':' :: l := rfl

theorem skipWs_quote (l : List Char) : skipWs ('"' :: l) = '"' :: l := rfl

theorem strArrItems_cons_decomp (lv : Nat) (x : Json) (tl : JsonArr) :
    ∃ pre, strArrItems lv (.cons x tl) = jIndent lv ++ (strJson lv x ++ pre) := by
  cases tl with
  | nil =>
      refine ⟨[], ?_⟩
      rw [strArrItems_one, List.append_nil]
  | cons y tl' => exact ⟨',' :: '\n' :: strArrItems lv (.cons y tl'), rfl⟩

theorem strObjItems_cons_decomp (lv : Nat) (k : String) (v : Json) (tl : JsonObj) :
    ∃ Y, strObjItems lv (.cons k v tl) = jIndent lv ++ ('"' :: Y) := by
  cases tl with
  | nil => exact ⟨escStr k.data ++ '"' :: ':' :: ' ' :: strJson lv v, rfl⟩
  | cons k2 v2 tl' =>
      refine ⟨(escStr k.data ++ '"' :: ':' :: ' ' :: strJson lv v) ++
        ',' :: '\n' :: strObjItems lv (.cons k2 v2 tl'), ?_⟩
      rw [strObjItems_more, List.append_assoc, List.cons_append]

/-- Round trip of serialization and parsing: one value plus arbitrary
non-digit-leading continuation, together with the array and object item
loops.  Induction on parser fuel. -/
theorem parse_round_main (fuel : Nat) :
    (∀ v lv rest, nodesJ v ≤ fuel → noDigitHead rest = true →
      parseVal fuel (strJson lv v ++ rest) = some (v, rest)) ∧
    (∀ x tl lv lv2 rest, nodesA (JsonArr.cons x tl) ≤ fuel →
      parseArrItems fuel
          (strArrItems lv (.cons x tl) ++ '\n' :: (jIndent lv2 ++ ']' :: rest)) =
        some (JsonArr.cons x tl, rest)) ∧
    (∀ k v tl lv lv2 rest, nodesO (JsonObj.cons k v tl) ≤ fuel →
      parseObjItems fuel
          (strObjItems lv (.cons k v tl) ++ '\n' :: (jIndent lv2 ++ '\x7d' :: rest)) =
        some (JsonObj.cons k v tl, rest)) := by
  induction fuel with
  | zero =>
      refine ⟨?_, ?_, ?_⟩
      · intro v lv rest hf _
        exact absurd hf (by have := nodesJ_pos v; omega)
      · intro x tl lv lv2 rest hf
        exact absurd hf (by have := nodesA_pos (JsonArr.cons x tl); omega)
      · intro k v tl lv lv2 rest hf
        exact absurd hf (by have := nodesO_pos (JsonObj.cons k v tl); omega)
  | succ fuel ih =>
      obtain ⟨ihV, ihA, ihO⟩ := ih
      refine ⟨?_, ?_, ?_⟩
      · -- the value parser
        intro v lv rest hf hrest
        cases v with
        | null => rfl
        | bool b => cases b <;> rfl
        | num n =>
            rw [strJson_num_eq]
            unfold intChars
            by_cases hn : n < 0
            · rw [if_pos hn, List.cons_append, parseVal_dash,
                parseNatNum_round n.natAbs rest hrest]
              show some (Json.num (-(n.natAbs : Int)), rest) = some (.num n, rest)
              have hv : -((n.natAbs : Int)) = n := by omega
              rw [hv]
            · rw [if_neg hn]
              cases hm : natChars n.natAbs with
              | nil => exact absurd hm (natChars_ne_nil _)
              | cons c0 cs0 =>
                  have hc : isDigitChar c0 = true :=
                    natChars_digits _ c0 (by rw [hm]; simp)
                  rw [List.cons_append, parseVal_digit fuel c0 _ hc, ← List.cons_append,
                    ← hm, parseNatNum_round n.natAbs rest hrest]
                  show some (Json.num ((n.natAbs : Int)), rest) = some (.num n, rest)
                  have hv : ((n.natAbs : Int)) = n := by omega
                  rw [hv]
        | str s =>
            rw [strJson_str_eq, List.cons_append, List.append_assoc,
              List.singleton_append, parseVal_quote, parseStrChars_round s.data rest]
        | arr xs =>
            cases xs with
            | nil => rfl
            | cons x tl =>
                have hfA : nodesA (JsonArr.cons x tl) ≤ fuel := by
                  have hh : nodesJ (Json.arr (.cons x tl)) =
                      nodesA (JsonArr.cons x tl) + 1 := rfl
                  omega
                rw [strJson_arr_cons_eq]
                simp only [List.cons_append, List.append_assoc, List.singleton_append, List.nil_append]
                rw [parseVal_lbrack, skipWs_newline]
                obtain ⟨pre, hpre⟩ := strArrItems_cons_decomp (lv + 1) x tl
                obtain ⟨c0, cs0, hhead, hws, hrb, -, -⟩ := strJson_head (lv + 1) x
                have hskip : skipWs (strArrItems (lv + 1) (.cons x tl) ++
                    '\n' :: (jIndent lv ++ ']' :: rest)) =
                    c0 :: (cs0 ++ (pre ++ '\n' :: (jIndent lv ++ ']' :: rest))) := by
                  rw [hpre]
                  simp only [List.append_assoc]
                  rw [skipWs_indent, skipWs_strJson, hhead, List.cons_append]
                rw [hskip]
                simp only [if_neg hrb]
                rw [← hskip, parseArrItems_skipWs, ihA x tl (lv + 1) lv rest hfA]
        | obj fs =>
            cases fs with
            | nil => rfl
            | cons k v tl =>
                have hfO : nodesO (JsonObj.cons k v tl) ≤ fuel := by
                  have hh : nodesJ (Json.obj (.cons k v tl)) =
                      nodesO (JsonObj.cons k v tl) + 1 := rfl
                  omega
                rw [strJson_obj_cons_eq]
                simp only [List.cons_append, List.append_assoc, List.singleton_append, List.nil_append]
                rw [parseVal_lbrace, skipWs_newline]
                obtain ⟨Y, hY⟩ := strObjItems_cons_decomp (lv + 1) k v tl
                have hskip : skipWs (strObjItems (lv + 1) (.cons k v tl) ++
                    '\n' :: (jIndent lv ++ '\x7d' :: rest)) =
                    '"' :: (Y ++ '\n' :: (jIndent lv ++ '\x7d' :: rest)) := by
                  rw [hY]
                  simp only [List.append_assoc]
                  rw [skipWs_indent, List.cons_append, skipWs_quote]
                rw [hskip]
                simp only [if_neg (by decide : ¬('"' = '\x7d'))]
                rw [← hskip, parseObjItems_skipWs, ihO k v tl (lv + 1) lv rest hfO]
      · -- the array item loop
        intro x tl lv lv2 rest hf
        have hfx : nodesJ x ≤ fuel := by
          have hh : nodesA (JsonArr.cons x tl) = nodesJ x + nodesA tl + 1 := rfl
          omega
        rw [parseArrItems]
        cases tl with
        | nil =>
            rw [strArrItems_one]
            simp only [List.cons_append, List.append_assoc, List.nil_append]
            have hv : parseVal fuel (jIndent lv ++
                (strJson lv x ++ '\n' :: (jIndent lv2 ++ ']' :: rest))) =
                some (x, '\n' :: (jIndent lv2 ++ ']' :: rest)) := by
              rw [← parseVal_skipWs, skipWs_indent, parseVal_skipWs]
              exact ihV x lv _ hfx rfl
            rw [hv]
            simp only [skipWs_newline, skipWs_indent, skipWs_rbrack,
              Char.reduceEq, reduceIte]
        | cons y tl' =>
            have hfA : nodesA (JsonArr.cons y tl') ≤ fuel := by
              have hh : nodesA (JsonArr.cons x (.cons y tl')) =
                  nodesJ x + nodesA (JsonArr.cons y tl') + 1 := rfl
              omega
            rw [strArrItems_more]
            simp only [List.cons_append, List.append_assoc, List.nil_append]
            have hv : parseVal fuel (jIndent lv ++
                (strJson lv x ++ ',' :: '\n' :: (strArrItems lv (.cons y tl') ++
                  '\n' :: (jIndent lv2 ++ ']' :: rest)))) =
                some (x, ',' :: '\n' :: (strArrItems lv (.cons y tl') ++
                  '\n' :: (jIndent lv2 ++ ']' :: rest))) := by
              rw [← parseVal_skipWs, skipWs_indent, parseVal_skipWs]
              exact ihV x lv _ hfx rfl
            rw [hv]
            simp only [skipWs_comma, Char.reduceEq, reduceIte]
            rw [← parseArrItems_skipWs, skipWs_newline, parseArrItems_skipWs,
              ihA y tl' lv lv2 rest hfA]
      · -- the object member loop
        intro k v tl lv lv2 rest hf
        have hfv : nodesJ v ≤ fuel := by
          have hh : nodesO (JsonObj.cons k v tl) = nodesJ v + nodesO tl + 1 := rfl
          omega
        rw [parseObjItems]
        cases tl with
        | nil =>
            rw [strObjItems_one]
            simp only [List.cons_append, List.append_assoc, List.nil_append]
            rw [skipWs_indent, skipWs_quote]
            simp only [Char.reduceEq, reduceIte]
            rw [parseStrChars_round k.data]
            simp only [skipWs_colon, Char.reduceEq, reduceIte]
            have hv : parseVal fuel
                (' ' :: (strJson lv v ++ '\n' :: (jIndent lv2 ++ '\x7d' :: rest))) =
                some (v, '\n' :: (jIndent lv2 ++ '\x7d' :: rest)) := by
              rw [← parseVal_skipWs, skipWs_space, parseVal_skipWs]
              exact ihV v lv _ hfv rfl
            rw [hv]
            simp only [skipWs_newline, skipWs_indent, skipWs_rbrace,
              Char.reduceEq, reduceIte]
        | cons k2 v2 tl' =>
            have hfO : nodesO (JsonObj.cons k2 v2 tl') ≤ fuel := by
              have hh : nodesO (JsonObj.cons k v (.cons k2 v2 tl')) =
                  nodesJ v + nodesO (JsonObj.cons k2 v2 tl') + 1 := rfl
              omega
            rw [strObjItems_more]
            simp only [List.cons_append, List.append_assoc, List.nil_append]
            rw [skipWs_indent, skipWs_quote]
            simp only [Char.reduceEq, reduceIte]
            rw [parseStrChars_round k.data]
            simp only [skipWs_colon, Char.reduceEq, reduceIte]
            have hv : parseVal fuel
                (' ' :: (strJson lv v ++ ',' :: '\n' :: (strObjItems lv (.cons k2 v2 tl') ++
                  '\n' :: (jIndent lv2 ++ '\x7d' :: rest)))) =
                some (v, ',' :: '\n' :: (strObjItems lv (.cons k2 v2 tl') ++
                  '\n' :: (jIndent lv2 ++ '\x7d' :: rest))) := by
              rw [← parseVal_skipWs, skipWs_space, parseVal_skipWs]
              exact ihV v lv _ hfv rfl
            rw [hv]
            simp only [skipWs_comma, Char.reduceEq, reduceIte]
            rw [← parseObjItems_skipWs, skipWs_newline, parseObjItems_skipWs,
              ihO k2 v2 tl' lv lv2 rest hfO]

mutual
/-- One serialized character per counted node, up to the two closing
characters: value version. -/
theorem nodesJ_le_len (lv : Nat) (v : Json) : nodesJ v ≤ (strJson lv v).length := by
  cases v with
  | null => show 1 ≤ (['n', 'u', 'l', 'l'] : List Char).length; simp
  | bool b =>
      cases b
      · show 1 ≤ (['f', 'a', 'l', 's', 'e'] : List Char).length; simp
      · show 1 ≤ (['t', 'r', 'u', 'e'] : List Char).length; simp
  | num n =>
      show 1 ≤ (intChars n).length
      unfold intChars
      by_cases hn : n < 0
      · rw [if_pos hn]; simp
      · rw [if_neg hn]
        cases hm : natChars n.natAbs with
        | nil => exact absurd hm (natChars_ne_nil _)
        | cons c cs => simp
  | str s =>
      show 1 ≤ ('"' :: (escStr s.data ++ ['"'])).length
      simp
  | arr xs =>
      cases xs with
      | nil => show 2 ≤ (['[', ']'] : List Char).length; simp
      | cons x tl =>
          have h := nodesA_le_len (lv + 1) (.cons x tl)
          have hn : nodesJ (Json.arr (.cons x tl)) = nodesA (JsonArr.cons x tl) + 1 := rfl
          rw [hn, strJson_arr_cons_eq]
          simp only [List.length_cons, List.length_append, jIndent,
            List.length_replicate, List.length_singleton]
          omega
  | obj fs =>
      cases fs with
      | nil => show 2 ≤ (['\x7b', '\x7d'] : List Char).length; simp
      | cons k v tl =>
          have h := nodesO_le_len (lv + 1) (.cons k v tl)
          have hn : nodesJ (Json.obj (.cons k v tl)) = nodesO (JsonObj.cons k v tl) + 1 := rfl
          rw [hn, strJson_obj_cons_eq]
          simp only [List.length_cons, List.length_append, jIndent,
            List.length_replicate, List.length_singleton]
          omega
/-- One serialized character per counted node, up to the two closing
characters: array item version. -/
theorem nodesA_le_len (lv : Nat) (xs : JsonArr) :
    nodesA xs ≤ (strArrItems lv xs).length + 2 := by
  cases xs with
  | nil => show 1 ≤ ([] : List Char).length + 2; simp
  | cons x tl =>
      cases tl with
      | nil =>
          have h := nodesJ_le_len lv x
          have hn : nodesA (JsonArr.cons x .nil) = nodesJ x + 2 := rfl
          rw [hn, strArrItems_one]
          simp only [List.length_append, jIndent, List.length_replicate]
          omega
      | cons y tl' =>
          have h1 := nodesJ_le_len lv x
          have h2 := nodesA_le_len lv (.cons y tl')
          have hn : nodesA (JsonArr.cons x (.cons y tl')) =
              nodesJ x + nodesA (JsonArr.cons y tl') + 1 := rfl
          rw [hn, strArrItems_more]
          simp only [List.length_append, List.length_cons, jIndent,
            List.length_replicate]
          omega
/-- One serialized character per counted node, up to the two closing
characters: object member version. -/
theorem nodesO_le_len (lv : Nat) (fs : JsonObj) :
    nodesO fs ≤ (strObjItems lv fs).length + 2 := by
  cases fs with
  | nil => show 1 ≤ ([] : List Char).length + 2; simp
  | cons k v tl =>
      cases tl with
      | nil =>
          have h := nodesJ_le_len lv v
          have hn : nodesO (JsonObj.cons k v .nil) = nodesJ v + 2 := rfl
          rw [hn, strObjItems_one]
          simp only [List.length_append, List.length_cons, jIndent,
            List.length_replicate]
          omega
      | cons k2 v2 tl' =>
          have h1 := nodesJ_le_len lv v
          have h2 := nodesO_le_len lv (.cons k2 v2 tl')
          have hn : nodesO (JsonObj.cons k v (.cons k2 v2 tl')) =
              nodesJ v + nodesO (JsonObj.cons k2 v2 tl') + 1 := rfl
          rw [hn, strObjItems_more]
          simp only [List.length_append, List.length_cons, jIndent,
            List.length_replicate]
          omega
end

/-- Serializing any JSON value with the embedded `JSON.stringify(·, null, 2)`
and parsing the text back returns exactly the original value. -/
theorem parseJson_jstringify (v : Json) : parseJson (jstringify v) = some v := by
  have h := (parse_round_main ((strJson 0 v).length + 1)).1 v 0 []
    (by have := nodesJ_le_len 0 v; omega) rfl
  rw [List.append_nil] at h
  show (match parseVal ((strJson 0 v).length + 1) (strJson 0 v) with
        | some (v, rest) => if skipWs rest = [] then some v else none
        | none => none) = some v
  rw [h]
  rfl

deriving instance DecidableEq for Json

/-! ## JS object helpers used by the embedded code -/

/-- First entry with the given key (JS objects cannot repeat keys). -/
def jLookup : JsonObj → String → Option Json
  | .nil, _ => none
  | .cons k v tl, key => if k = key then some v else jLookup tl key

/-- JS property access `o[key]`: `undefined` (`none`) on non-objects. -/
def jGet : Json → String → Option Json
  | .obj fs, key => jLookup fs key
  | _, _ => none

/-- JS truthiness of a JSON value. -/
def jTruthy : Json → Bool
  | .null => false
  | .bool b => b
  | .num n => !(n == 0)
  | .str s => !(s == "")
  | .arr _ => true
  | .obj _ => true

/-- JS truthiness with `undefined` (absent property) being falsy. -/
def jTruthyOpt : Option Json → Bool
  | none => false
  | some v => jTruthy v

/-- `delete o.key` on the top level of an object member list. -/
def jDeleteObj : JsonObj → String → JsonObj
  | .nil, _ => .nil
  | .cons k v tl, key =>
      if k = key then jDeleteObj tl key else .cons k v (jDeleteObj tl key)

/-- `delete o.key`: non-objects are unchanged. -/
def jDelete : Json → String → Json
  | .obj fs, key => .obj (jDeleteObj fs key)
  | v, _ => v

mutual
/-- No member named `$ref` anywhere in the document: value version. -/
def refFreeJ : Json → Bool
  | .obj fs => refFreeO fs
  | .arr xs => refFreeA xs
  | _ => true
/-- No member named `$ref` anywhere: array version. -/
def refFreeA : JsonArr → Bool
  | .nil => true
  | .cons x tl => refFreeJ x && refFreeA tl
/-- No member named `$ref` anywhere: object member version. -/
def refFreeO : JsonObj → Bool
  | .nil => true
  | .cons k v tl => !(k == "$ref") && refFreeJ v && refFreeO tl
end

/-- First-occurrence substring replacement, as JS `String.replace` with a
string pattern. -/
def replaceOnceChars (pat rep : List Char) : List Char → List Char
  | [] => []
  | c :: r =>
      if pat.isPrefixOf (c :: r) then rep ++ (c :: r).drop pat.length
      else c :: replaceOnceChars pat rep r

/-- String wrapper for `replaceOnceChars`. -/
def replaceOnce (pat rep s : String) : String :=
  String.mk (replaceOnceChars pat.data rep.data s.data)

/-! ## Schema Translator (`loadToolMetadata` flattening) -/

/-- The `$ref`/`definitions` flattening block of `loadToolMetadata`
(`mcp-server.ts`): when the converted document is truthy in both
`definitions` and `$ref`, dereference `$ref` (stripping the
`#/definitions/` prefix, first occurrence, as `String.replace` does), inline
the referenced definition — falling back to the whole document when the
dereference is falsy — and delete `$schema`; otherwise return the document
unchanged.  A non-string truthy `$ref` would be a type error in the source
and cannot be produced by the converter, so it is left unchanged here. -/
def flattenSchemaDoc (fullSchema : Json) : Json :=
  if jTruthyOpt (jGet fullSchema "definitions") && jTruthyOpt (jGet fullSchema "$ref") then
    match jGet fullSchema "definitions", jGet fullSchema "$ref" with
    | some defs, some (.str ref) =>
        let refKey := replaceOnce "#/definitions/" "" ref
        (match jGet defs refKey with
         | some d => if jTruthy d then jDelete d "$schema" else jDelete fullSchema "$schema"
         | none => jDelete fullSchema "$schema")
    | _, _ => fullSchema
  else fullSchema

/-- The schema default of `loadToolMetadata`: without a `tool.inputSchema`
the registered document is `{type: 'object', properties: {}}`; with one, the
flattened conversion output. -/
def toolInputSchemaDoc : Option Json → Json
  | none => .obj (.cons "type" (.str "object") (.cons "properties" (.obj .nil) .nil))
  | some fullSchema => flattenSchemaDoc fullSchema

/-! ## Zod validator model and the Validation Wrapper (`createTool`) -/

/-- One Zod issue: a path and a message, as rendered by the wrapper. -/
structure ZIssue where
  path : List String
  message : String
deriving DecidableEq

/-- The primitive Zod types this embedding needs. -/
inductive ZType where
  | zstring : ZType
  | znumber : ZType
  | zboolean : ZType
deriving DecidableEq

/-- One declared object field: its type and whether it is optional. -/
structure ZField where
  type : ZType
  optional : Bool
deriving DecidableEq

/-- Does a JSON value inhabit a primitive Zod type. -/
def typeMatches : ZType → Json → Bool
  | .zstring, .str _ => true
  | .znumber, .num _ => true
  | .zboolean, .bool _ => true
  | _, _ => false

/-- Zod names for expected types. -/
def zodTypeName : ZType → String
  | .zstring => "string"
  | .znumber => "number"
  | .zboolean => "boolean"

/-- Zod names for received values. -/
def jsonTypeName : Json → String
  | .null => "null"
  | .bool _ => "boolean"
  | .num _ => "number"
  | .str _ => "string"
  | .arr _ => "array"
  | .obj _ => "object"

/-- The issue (if any) one declared field produces on the given raw object:
`Required` with path `[key]` for a missing required key, an
expected/received mismatch message otherwise, as Zod v3 reports them. -/
def zodFieldIssue (entries : JsonObj) : String × ZField → Option ZIssue :=
  fun p =>
    match jLookup entries p.1 with
    | none => if p.2.optional then none else some ⟨[p.1], "Required"⟩
    | some v =>
        if typeMatches p.2.type v then none
        else some ⟨[p.1], "Expected " ++ zodTypeName p.2.type ++ ", received " ++ jsonTypeName v⟩

/-- The value a recognized field contributes to the parsed output. -/
def zodKeepField (entries : JsonObj) : String × ZField → Option (String × Json) :=
  fun p => (jLookup entries p.1).map (fun v => (p.1, v))

/-- Build an object member list from an association list. -/
def listToJsonObj : List (String × Json) → JsonObj
  | [] => .nil
  | (k, v) :: r => .cons k v (listToJsonObj r)

/-- Modelled `z.object(fields).parse`: rejects non-objects, otherwise
collects one issue per violating field in declared order and fails when any
exist; on success it returns the object stripped to the declared keys. -/
def zodParseObject (fields : List (String × ZField)) (raw : Json) :
    Except (List ZIssue) Json :=
  match raw with
  | .obj entries =>
      match fields.filterMap (zodFieldIssue entries) with
      | [] => .ok (.obj (listToJsonObj (fields.filterMap (zodKeepField entries))))
      | issues => .error issues
  | _ => .error [⟨[], "Expected object, received " ++ jsonTypeName raw⟩]

/-- Errors propagating through the embedded JS: `ToolError`
(src/types/index.ts) with its constructor fields, a Zod validation error
carrying its issues, or any other thrown value (`some` message for `Error`
instances, `none` for non-Error throws). -/
inductive JsErr where
  | toolErr (tool : String) (message : String) (retryable : Bool) : JsErr
  | zodErr (issues : List ZIssue) : JsErr
  | otherErr (message : Option String) : JsErr
deriving DecidableEq

/-- Configuration passed to `createTool` (src/utils/tool-factory.ts):
validators are their parse behaviour, `execute` may throw. -/
structure ToolConfig where
  name : String
  input : Json → Except (List ZIssue) Json
  output : Json → Except (List ZIssue) Json
  execute : Json → Except JsErr Json

/-- The value `createTool` returns: the raw pieces plus the validating
`call` entry point. -/
structure RuntimeTool where
  name : String
  inputSchema : Json → Except (List ZIssue) Json
  outputSchema : Json → Except (List ZIssue) Json
  execute : Json → Except JsErr Json
  call : Json → Except JsErr Json

/-- `path.join('.')` of a Zod issue path. -/
def joinDots : List String → String
  | [] => ""
  | [x] => x
  | x :: r => x ++ "." ++ joinDots r

/-- `array.join(', ')`. -/
def joinComma : List String → String
  | [] => ""
  | [x] => x
  | x :: r => x ++ ", " ++ joinComma r

/-- The message body `error.errors.map(e => path.join('.') + ': ' +
e.message).join(', ')` of the wrapper's validation failure. -/
def renderZodIssues (issues : List ZIssue) : String :=
  joinComma (issues.map fun i => joinDots i.path ++ ": " ++ i.message)

/-- The `catch` block of `createTool`'s `call`: a ZodError becomes a
non-retryable ToolError with the rendered message, a ToolError is rethrown
unchanged, anything else is wrapped non-retryable with its message (or
`Unknown error occurred`). -/
def toolCatch (name : String) : JsErr → JsErr
  | .zodErr issues =>
      .toolErr name ("Validation failed: " ++ renderZodIssues issues) false
  | .toolErr t m r => .toolErr t m r
  | .otherErr (some m) => .toolErr name m false
  | .otherErr none => .toolErr name "Unknown error occurred" false

/-- The `try` body of `call`: validate input, execute, validate output. -/
def toolCallBody (cfg : ToolConfig) (rawInput : Json) : Except JsErr Json := do
  let vin ← (cfg.input rawInput).mapError JsErr.zodErr
  let res ← cfg.execute vin
  let vout ← (cfg.output res).mapError JsErr.zodErr
  pure vout

/-- `createTool` (src/utils/tool-factory.ts): packages name, schemas and the
raw `execute`, and a `call` that runs the validated body under the catch
translation. -/
def createTool (cfg : ToolConfig) : RuntimeTool :=
  { name := cfg.name
    inputSchema := cfg.input
    outputSchema := cfg.output
    execute := cfg.execute
    call := fun raw => (toolCallBody cfg raw).mapError (toolCatch cfg.name) }

/-! ## Name Normalizer -/

/-- Character-level body of `camelToSnake`. -/
def camelToSnakeChars : List Char → List Char
  | [] => []
  | c :: r =>
      if c.isUpper then '_' :: c.toLower :: camelToSnakeChars r
      else c :: camelToSnakeChars r

/-- `camelToSnake` (mcp-server.ts):
`str.replace(/[A-Z]/g, letter => '_' + letter.toLowerCase())`. -/
def camelToSnake (s : String) : String := String.mk (camelToSnakeChars s.data)

/-- `normalizeServerName` (mcp-server.ts): every hyphen of the name replaced
by an underscore (a global regex replace in the source). -/
def normalizeServerName (s : String) : String :=
  String.mk (s.data.map (fun c => if c = '-' then '_' else c))

/-- The wire name built at registration:
`normalizeServerName(server) + '__' + camelToSnake(tool)`. -/
def mkWireName (serverName toolName : String) : String :=
  normalizeServerName serverName ++ "__" ++ camelToSnake toolName

/-- Wire-name rule as the specification words it (§4.1), written
independently of the source embedding: every internal hyphen of the group
rewritten to an underscore, a double-underscore join, and every uppercase
letter of the operation replaced by an underscore plus its lowercase form. -/
def specWireName (group op : String) : String :=
  String.mk ((group.data.map fun c => if c = '-' then '_' else c) ++
    ('_' :: '_' :: (op.data.flatMap fun c => if c.isUpper then ['_', c.toLower] else [c])))

/-! ## Tool Registry -/

/-- MCP `Tool` metadata record held by the registry. -/
structure ToolMetadata where
  name : String
  description : String
  inputSchema : Json
deriving DecidableEq

/-- `ServerMetadata` (src/types/index.ts). -/
structure ServerMetadata where
  name : String
  description : String
  version : String
  tools : List String
deriving DecidableEq

/-- `ToolRegistryEntry` (mcp-server.ts). -/
structure RegistryEntry where
  serverName : String
  toolName : String
  metadata : ToolMetadata
deriving DecidableEq

/-- The static `serverRegistry` of src/servers/index.ts. -/
def serverRegistry : List ServerMetadata :=
  [⟨"example", "Example tool server demonstrating the MCP architecture", "1.0.0",
      ["greet"]⟩,
   ⟨"youtube", "YouTube integration via Composio - subscriptions, playlists, latest videos",
      "1.0.0", ["getSubscriptions", "getPlaylistItems", "getLatestVideos"]⟩,
   ⟨"gmail", "Gmail integration via Composio - send emails", "1.0.0", ["sendEmail"]⟩]

/-- `getAllServers` returns the static registry verbatim. -/
def getAllServers : List ServerMetadata := serverRegistry

/-- Association-list lookup with string keys (JS `Map.get`). -/
def lookupA {β : Type} : List (String × β) → String → Option β
  | [], _ => none
  | p :: r, key => if p.1 = key then some p.2 else lookupA r key

/-- JS `Map.set`: replace in place when the key exists, else append —
insertion order is what `Map` iteration exposes. -/
def mapSet {β : Type} (m : List (String × β)) (k : String) (v : β) :
    List (String × β) :=
  match lookupA m k with
  | some _ => m.map (fun p => if p.1 = k then (k, v) else p)
  | none => m ++ [(k, v)]

/-- `initializeToolRegistry` (mcp-server.ts): iterate the server catalog and
each server's tool list in order, compute the wire name, load the metadata
(the dynamic import and schema conversion are the `loadToolMetadata`
argument); a load failure is caught, logged and skipped, a success registers
the entry under the wire name. -/
def initializeToolRegistry (servers : List ServerMetadata)
    (loadToolMetadata : String → String → Except String ToolMetadata) :
    List (String × RegistryEntry) :=
  servers.foldl
    (fun reg sm =>
      sm.tools.foldl
        (fun reg toolName =>
          match loadToolMetadata sm.name toolName with
          | .ok md => mapSet reg (mkWireName sm.name toolName) ⟨sm.name, toolName, md⟩
          | .error _ => reg)
        reg)
    []

/-- Imported collaborator data `loadToolMetadata` inspects after the dynamic
import: the description-related fields and, when `tool.inputSchema` is
truthy, the `zodToJsonSchema` conversion output. -/
structure ImportedToolInfo where
  description : Option String
  nameField : Option String
  convertedSchema : Option Json
deriving DecidableEq

/-- The `tool.name` fallback inside `extractToolDescription`. -/
def extractFallbackName : Option String → String → String → String
  | some nm, sn, tn => if nm = "" then sn ++ " " ++ tn ++ " tool" else nm ++ " tool"
  | none, sn, tn => sn ++ " " ++ tn ++ " tool"

/-- `extractToolDescription` (mcp-server.ts): the tool's own description when
truthy, else `name` plus " tool", else the server/tool default. -/
def extractToolDescription : Option String → Option String → String → String → String
  | some d, nf, sn, tn => if d = "" then extractFallbackName nf sn tn else d
  | none, nf, sn, tn => extractFallbackName nf sn tn

/-- `loadToolMetadata` (HTTP variant, mcp-server.ts) with the dynamic import
and the Zod conversion abstracted into `imported`: a missing export throws,
otherwise the metadata carries the wire name (same normalizer as
registration), the extracted description and the flattened schema. -/
def loadToolMetadataModel (serverName toolName : String)
    (imported : Option ImportedToolInfo) : Except String ToolMetadata :=
  match imported with
  | none =>
      .error ("Tool " ++ toolName ++ " not found in ./servers/" ++ serverName ++
        "/" ++ toolName ++ ".js")
  | some info =>
      .ok { name := mkWireName serverName toolName
            description :=
              extractToolDescription info.description info.nameField serverName toolName
            inputSchema := toolInputSchemaDoc info.convertedSchema }

/-! ## Request Dispatcher -/

/-- One `content` element of a call response. -/
structure ContentItem where
  type : String
  text : String
deriving DecidableEq

/-- A tool-call response as the handlers build it.  `structuredContent` is
the optional structured copy the MCP result type supports; the handlers of
this repository never set it, so `none` here records its absence. -/
structure CallToolResult where
  content : List ContentItem
  isError : Bool
  structuredContent : Option Json
deriving DecidableEq

/-- The issues array a ZodError serializes into its message. -/
def zodIssuesJson (issues : List ZIssue) : Json :=
  .arr (issues.foldr
    (fun i acc =>
      .cons (.obj (.cons "path" (.arr (i.path.foldr (fun p a => .cons (.str p) a) .nil))
        (.cons "message" (.str i.message) .nil))) acc)
    .nil)

/-- The `.message` property of a thrown value, as the catch blocks read it:
ToolError's constructor sets `[tool] message`, ZodError serializes its
issues, a non-Error throw reads as the string `undefined`. -/
def jsErrMessage : JsErr → String
  | .toolErr t m _ => "[" ++ t ++ "] " ++ m
  | .zodErr issues => jstringify (zodIssuesJson issues)
  | .otherErr (some m) => m
  | .otherErr none => "undefined"

/-- Outcome of one run of the call handler: an exception escaping the
handler (which the MCP SDK surfaces as a protocol-level JSON-RPC error), or
a returned result object. -/
inductive HandlerOutcome where
  | thrown (message : String) : HandlerOutcome
  | ok (result : CallToolResult) : HandlerOutcome
deriving DecidableEq

/-- `args || {}` of the call handlers: absent arguments become the empty
object, present (object) arguments pass through unchanged. -/
def effectiveArgs : Option Json → Json
  | none => .obj .nil
  | some a => a

/-- The `CallToolRequestSchema` handler (`createMcpServer` in mcp-server.ts;
the stdio handler in the first server file is the same logic line for line):
look up the wire name — an unknown name throws out of the handler — then
inside the `try`: import the module (`loadTool`; a `.error` is an import
throw, `none` a missing export or missing `execute` function), run
`tool.execute(args || \x7b\x7d)`, and serialize the result; any error caught
becomes an `isError` text payload carrying the error's message. -/
def handleCallTool (registry : List (String × RegistryEntry))
    (loadTool : String → String → Except JsErr (Option RuntimeTool))
    (toolName : String) (args : Option Json) : HandlerOutcome :=
  match lookupA registry toolName with
  | none => .thrown ("Unknown tool: " ++ toolName)
  | some entry =>
      let attempt : Except JsErr CallToolResult := do
        let mtool ← loadTool entry.serverName entry.toolName
        match mtool with
        | none =>
            throw (JsErr.otherErr
              (some ("Tool " ++ toolName ++ " does not have an execute function")))
        | some tool => do
            let result ← tool.execute (effectiveArgs args)
            pure { content := [⟨"text", jstringify result⟩]
                   isError := false
                   structuredContent := none }
      match attempt with
      | .ok res => .ok res
      | .error e =>
          .ok { content := [⟨"text",
                  "Error executing " ++ toolName ++ ": " ++ jsErrMessage e⟩]
                isError := true
                structuredContent := none }

/-- The `ListToolsRequestSchema` handler: every entry's metadata, in registry
(insertion) order. -/
def handleListTools (registry : List (String × RegistryEntry)) : List ToolMetadata :=
  registry.map (fun p => p.2.metadata)

/-! ## HTTP transport: bearer auth, routes, startup -/

/-- A JSON-RPC error body (the `jsonrpc` and `id` members are constant). -/
structure RpcError where
  code : Int
  message : String
deriving DecidableEq

/-- What the auth middleware does with a request. -/
inductive AuthOutcome where
  | respond (status : Nat) (body : RpcError) : AuthOutcome
  | proceed : AuthOutcome
deriving DecidableEq

/-- JS `s.startsWith(pre)`: character-level prefix test. -/
def strStartsWith (s pre : String) : Bool := pre.data.isPrefixOf s.data

/-- `bearerAuth` (mcp-server.ts): missing or non-`Bearer ` header responds
401, a present `Bearer` token different from `config.server.apiKey`
responds 403, a match calls `next()`.  The token is `authHeader.slice(7)`. -/
def bearerAuth (authHeader : Option String) (apiKey : String) : AuthOutcome :=
  match authHeader with
  | none =>
      .respond 401 ⟨-32001,
        "Missing or invalid Authorization header. Expected: Bearer <token>"⟩
  | some h =>
      if strStartsWith h "Bearer " = false then
        .respond 401 ⟨-32001,
          "Missing or invalid Authorization header. Expected: Bearer <token>"⟩
      else if h.drop 7 ≠ apiKey then .respond 403 ⟨-32002, "Invalid API key"⟩
      else .proceed

/-- Response bodies the HTTP layer produces directly. -/
inductive HttpBody where
  | health (status : String) (tools : Nat) : HttpBody
  | rpcErr (e : RpcError) : HttpBody
deriving DecidableEq

/-- Outcome of routing one HTTP request: an immediate response, or the
request reaching the per-request MCP server/dispatcher pair. -/
inductive HttpOutcome where
  | response (status : Nat) (body : HttpBody) : HttpOutcome
  | dispatched : HttpOutcome
deriving DecidableEq

/-- The express route table of `startMcpServer` (HTTP): `GET /health`
responds without auth, `bearerAuth` guards every `/mcp` route, `POST /mcp`
reaches the dispatcher, `GET`/`DELETE /mcp` respond 405; anything else is
the express fallthrough (404, body irrelevant to the handlers here). -/
def routeHttp (method path : String) (authHeader : Option String) (apiKey : String)
    (registrySize : Nat) : HttpOutcome :=
  if path = "/health" then
    (if method = "GET" then .response 200 (.health "ok" registrySize)
     else .response 404 (.rpcErr ⟨-32601, "Cannot route"⟩))
  else if path = "/mcp" then
    match bearerAuth authHeader apiKey with
    | .respond s b => .response s (.rpcErr b)
    | .proceed =>
        if method = "POST" then .dispatched
        else if method = "GET" then
          .response 405 (.rpcErr ⟨-32601, "SSE not supported in stateless mode"⟩)
        else if method = "DELETE" then
          .response 405 (.rpcErr ⟨-32601, "Session termination not supported in stateless mode"⟩)
        else .response 404 (.rpcErr ⟨-32601, "Cannot route"⟩)
  else .response 404 (.rpcErr ⟨-32601, "Cannot route"⟩)

/-- `env(key, default)` for string defaults (src/config.ts): the raw
environment value when the variable is set, the default otherwise (no
falsiness coercion). -/
def envString (value : Option String) (dflt : String) : String :=
  match value with
  | none => dflt
  | some v => v

/-- `config.server.apiKey = env('MCP_API_KEY', '')`. -/
def apiKeyConfig (mcpApiKeyEnv : Option String) : String := envString mcpApiKeyEnv ""

/-- Whether the HTTP entry point reaches `startMcpServer`. -/
inductive MainOutcome where
  | fatalExit (code : Nat) : MainOutcome
  | started : MainOutcome
deriving DecidableEq

/-- The fail-fast check at the top of `main` in the HTTP entry point
(src/index.ts): a falsy `config.server.apiKey` logs fatal and calls
`process.exit(1)` before `startMcpServer()` ever runs. -/
def mainStartup (mcpApiKeyEnv : Option String) : MainOutcome :=
  if apiKeyConfig mcpApiKeyEnv = "" then .fatalExit 1 else .started

/-! ## Supporting lemmas -/

theorem camelToSnakeChars_eq_flatMap (l : List Char) :
    camelToSnakeChars l =
      l.flatMap (fun c => if c.isUpper then ['_', c.toLower] else [c]) := by
  induction l with
  | nil => rfl
  | cons c r ih =>
      by_cases h : c.isUpper
      · simp [camelToSnakeChars, h, ih]
      · simp [camelToSnakeChars, h, ih]

theorem replaceOnceChars_exact (c : Char) (pr k : List Char) :
    replaceOnceChars (c :: pr) [] ((c :: pr) ++ k) = k := by
  rw [show (c :: pr) ++ k = c :: (pr ++ k) from rfl]
  unfold replaceOnceChars
  rw [if_pos ?hp]
  · rw [List.nil_append, show (c :: (pr ++ k)) = (c :: pr) ++ k from rfl,
      show (c :: pr).length = (c :: pr).length from rfl, List.drop_left]
  case hp =>
    rw [List.isPrefixOf_iff_prefix]
    exact ⟨k, rfl⟩

theorem refFreeO_jDeleteObj (fs : JsonObj) (key : String) (h : refFreeO fs = true) :
    refFreeO (jDeleteObj fs key) = true := by
  cases fs with
  | nil => rfl
  | cons k v tl =>
      rw [show refFreeO (.cons k v tl) = (!(k == "$ref") && refFreeJ v && refFreeO tl)
        from rfl] at h
      simp only [Bool.and_eq_true] at h
      have ih := refFreeO_jDeleteObj tl key h.2
      unfold jDeleteObj
      by_cases hk : k = key
      · rw [if_pos hk]; exact ih
      · rw [if_neg hk,
          show refFreeO (.cons k v (jDeleteObj tl key)) =
            (!(k == "$ref") && refFreeJ v && refFreeO (jDeleteObj tl key)) from rfl]
        simp [h.1.1, h.1.2, ih]

theorem refFreeJ_jDelete (v : Json) (key : String) (h : refFreeJ v = true) :
    refFreeJ (jDelete v key) = true := by
  cases v with
  | obj fs => exact refFreeO_jDeleteObj fs key h
  | null => exact h
  | bool b => exact h
  | num n => exact h
  | str s => exact h
  | arr xs => exact h

theorem joinComma_mem_infix (x : String) (l : List String) (hx : x ∈ l) :
    ∃ pre post, (joinComma l).data = pre ++ x.data ++ post := by
  induction l with
  | nil => cases hx
  | cons y r ih =>
      cases r with
      | nil =>
          rcases List.mem_singleton.mp hx with rfl
          exact ⟨[], [], by simp [joinComma]⟩
      | cons z r' =>
          have hcons : joinComma (y :: z :: r') = y ++ ", " ++ joinComma (z :: r') := rfl
          rcases List.mem_cons.mp hx with rfl | hx'
          · refine ⟨[], ", ".data ++ (joinComma (z :: r')).data, ?_⟩
            rw [hcons]
            simp [String.data_append, List.append_assoc]
          · obtain ⟨pre, post, hpp⟩ := ih hx'
            refine ⟨(y ++ ", ").data ++ pre, post, ?_⟩
            rw [hcons]
            simp [String.data_append, hpp, List.append_assoc]

/-- One iteration of the registration loop, over a flattened
(server, tool) pair. -/
def registryStep (load : String → String → Except String ToolMetadata)
    (reg : List (String × RegistryEntry)) (p : String × String) :
    List (String × RegistryEntry) :=
  match load p.1 p.2 with
  | .ok md => mapSet reg (mkWireName p.1 p.2) ⟨p.1, p.2, md⟩
  | .error _ => reg

/-- The catalog flattened to (server name, tool name) pairs in
registration order. -/
def catalogPairs (servers : List ServerMetadata) : List (String × String) :=
  servers.flatMap (fun sm => sm.tools.map (fun t => (sm.name, t)))

/-- All wire names of the catalog, in registration order. -/
def catalogWireNames (servers : List ServerMetadata) : List String :=
  (catalogPairs servers).map (fun p => mkWireName p.1 p.2)

theorem initializeToolRegistry_eq_foldl (servers : List ServerMetadata)
    (load : String → String → Except String ToolMetadata) :
    initializeToolRegistry servers load =
      (catalogPairs servers).foldl (registryStep load) [] := by
  have main : ∀ (ss : List ServerMetadata) (reg : List (String × RegistryEntry)),
      ss.foldl
        (fun reg sm =>
          sm.tools.foldl
            (fun reg toolName =>
              match load sm.name toolName with
              | .ok md => mapSet reg (mkWireName sm.name toolName) ⟨sm.name, toolName, md⟩
              | .error _ => reg)
            reg)
        reg =
      (catalogPairs ss).foldl (registryStep load) reg := by
    intro ss
    induction ss with
    | nil => intro reg; rfl
    | cons sm rest ih =>
        intro reg
        simp only [List.foldl_cons, catalogPairs, List.flatMap_cons, List.foldl_append]
        rw [← catalogPairs, ih, List.foldl_map]
        rfl
  exact main servers []

theorem lookupA_cons {β : Type} (p : String × β) (r : List (String × β)) (k : String) :
    lookupA (p :: r) k = if p.1 = k then some p.2 else lookupA r k := rfl

theorem lookupA_append_none {β : Type} (a b : List (String × β)) (k : String)
    (h : lookupA a k = none) : lookupA (a ++ b) k = lookupA b k := by
  induction a with
  | nil => rfl
  | cons p r ih =>
      rw [lookupA_cons] at h
      by_cases hp : p.1 = k
      · rw [if_pos hp] at h; cases h
      · rw [if_neg hp] at h
        rw [List.cons_append, lookupA_cons, if_neg hp]
        exact ih h

theorem mapSet_not_mem {β : Type} (m : List (String × β)) (k : String) (v : β)
    (h : lookupA m k = none) : mapSet m k v = m ++ [(k, v)] := by
  unfold mapSet
  rw [h]

theorem foldl_registryStep_eq (load : String → String → Except String ToolMetadata) :
    ∀ (pairs : List (String × String)) (reg : List (String × RegistryEntry)),
      (pairs.map (fun p => mkWireName p.1 p.2)).Nodup →
      (∀ p ∈ pairs, lookupA reg (mkWireName p.1 p.2) = none) →
      pairs.foldl (registryStep load) reg =
        reg ++ pairs.filterMap (fun p =>
          match load p.1 p.2 with
          | .ok md => some (mkWireName p.1 p.2, (⟨p.1, p.2, md⟩ : RegistryEntry))
          | .error _ => none) := by
  intro pairs
  induction pairs with
  | nil => intro reg _ _; simp
  | cons p rest ih =>
      intro reg hnd hdisj
      rw [List.map_cons, List.nodup_cons] at hnd
      rw [List.foldl_cons]
      cases hload : load p.1 p.2 with
      | ok md =>
          have hset : registryStep load reg p =
              reg ++ [(mkWireName p.1 p.2, (⟨p.1, p.2, md⟩ : RegistryEntry))] := by
            unfold registryStep
            rw [hload]
            exact mapSet_not_mem _ _ _ (hdisj p (by simp))
          have hdisj2 : ∀ q ∈ rest,
              lookupA (reg ++ [(mkWireName p.1 p.2, (⟨p.1, p.2, md⟩ : RegistryEntry))])
                (mkWireName q.1 q.2) = none := by
            intro q hq
            have hne : ¬(mkWireName p.1 p.2 = mkWireName q.1 q.2) := by
              intro heq
              apply hnd.1
              rw [heq]
              exact List.mem_map_of_mem _ hq
            rw [lookupA_append_none _ _ _ (hdisj q (List.mem_cons_of_mem _ hq)),
              lookupA_cons]
            show (if mkWireName p.1 p.2 = mkWireName q.1 q.2 then
              some (⟨p.1, p.2, md⟩ : RegistryEntry) else lookupA [] (mkWireName q.1 q.2)) = none
            rw [if_neg hne]
            rfl
          rw [hset, ih _ hnd.2 hdisj2]
          simp [List.filterMap_cons, hload, List.append_assoc]
      | error err =>
          rw [show registryStep load reg p = reg from by unfold registryStep; rw [hload]]
          rw [ih reg hnd.2 (fun q hq => hdisj q (List.mem_cons_of_mem _ hq))]
          simp [List.filterMap_cons, hload]

theorem initializeToolRegistry_filterMap (servers : List ServerMetadata)
    (load : String → String → Except String ToolMetadata)
    (hnd : (catalogWireNames servers).Nodup) :
    initializeToolRegistry servers load =
      (catalogPairs servers).filterMap (fun p =>
        match load p.1 p.2 with
        | .ok md => some (mkWireName p.1 p.2, (⟨p.1, p.2, md⟩ : RegistryEntry))
        | .error _ => none) := by
  rw [initializeToolRegistry_eq_foldl]
  have h := foldl_registryStep_eq load (catalogPairs servers) [] hnd (fun _ _ => rfl)
  simpa using h

theorem lookupA_filterMap_registry (load : String → String → Except String ToolMetadata) :
    ∀ (pairs : List (String × String)) (s t : String) (md : ToolMetadata),
      (pairs.map (fun p => mkWireName p.1 p.2)).Nodup →
      (s, t) ∈ pairs → load s t = .ok md →
      lookupA (pairs.filterMap (fun p =>
        match load p.1 p.2 with
        | .ok md => some (mkWireName p.1 p.2, (⟨p.1, p.2, md⟩ : RegistryEntry))
        | .error _ => none)) (mkWireName s t) = some ⟨s, t, md⟩ := by
  intro pairs
  induction pairs with
  | nil => intro s t md _ hmem _; cases hmem
  | cons q rest ih =>
      intro s t md hnd hmem hload
      rw [List.map_cons, List.nodup_cons] at hnd
      rcases List.mem_cons.mp hmem with heq | hmem'
      · rw [List.filterMap_cons, ← heq, hload]
        show lookupA ((mkWireName s t, (⟨s, t, md⟩ : RegistryEntry)) ::
          rest.filterMap _) (mkWireName s t) = some ⟨s, t, md⟩
        rw [lookupA_cons, if_pos rfl]
      · cases hloadq : load q.1 q.2 with
        | ok mdq =>
            rw [List.filterMap_cons, hloadq]
            have hne : ¬(mkWireName q.1 q.2 = mkWireName s t) := by
              intro hwq
              apply hnd.1
              rw [hwq]
              exact List.mem_map_of_mem (fun p => mkWireName p.1 p.2) hmem'
            rw [lookupA_cons]
            show (if mkWireName q.1 q.2 = mkWireName s t then
                some (⟨q.1, q.2, mdq⟩ : RegistryEntry)
              else lookupA (rest.filterMap _) (mkWireName s t)) = some ⟨s, t, md⟩
            rw [if_neg hne]
            exact ih s t md hnd.2 hmem' hload
        | error e =>
            rw [List.filterMap_cons, hloadq]
            exact ih s t md hnd.2 hmem' hload

/-! ## Scenario data shared by claim witnesses -/

/-- A metadata load whose imports always succeed with no description fields
and no input schema, mirroring `loadToolMetadata` on a minimal module. -/
def plainLoad : String → String → Except String ToolMetadata :=
  fun s t => loadToolMetadataModel s t (some ⟨none, none, none⟩)

/-- The two-group catalog of the specification's concrete scenario. -/
def scenarioServers : List ServerMetadata :=
  [⟨"alpha", "a", "1.0.0", ["doThing"]⟩, ⟨"beta", "b", "1.0.0", ["getValue"]⟩]

/-- The metadata `plainLoad` produces for youtube/getLatestVideos. -/
def witnessMd : ToolMetadata :=
  ⟨mkWireName "youtube" "getLatestVideos",
   extractToolDescription none none "youtube" "getLatestVideos",
   toolInputSchemaDoc none⟩

theorem drop7_bearer (k : String) : ("Bearer " ++ k).drop 7 = k := by
  apply String.ext
  rw [String.data_drop, String.data_append]
  rw [show ("Bearer ".data) = ['B', 'e', 'a', 'r', 'e', 'r', ' '] from rfl]
  simp

theorem startsWith_bearer (k : String) :
    strStartsWith ("Bearer " ++ k) "Bearer " = true := by
  unfold strStartsWith
  rw [String.data_append, List.isPrefixOf_iff_prefix]
  exact ⟨k.data, rfl⟩

/-! ## The claims -/

/-- C2: the wire name equals the hyphen-to-underscore group name joined by a
double underscore to the operation name with every uppercase letter replaced
by underscore plus lowercase (the source rule coincides with the
specification's independent wording of the rule); the concrete alpha/beta
catalog lists wire names `alpha__do_thing` then `beta__get_value` in that
order; and resolving an inbound call name built by the same rule finds the
registered entry whenever catalog wire names are distinct. -/
theorem wire_name_rule_and_scenario :
    (∀ g t, mkWireName g t = specWireName g t) ∧
    ((handleListTools (initializeToolRegistry scenarioServers plainLoad)).map
        (fun m => m.name) = ["alpha__do_thing", "beta__get_value"]) ∧
    (∀ servers load s t md, (catalogWireNames servers).Nodup →
      (s, t) ∈ catalogPairs servers → load s t = .ok md →
      lookupA (initializeToolRegistry servers load) (mkWireName s t) =
        some ⟨s, t, md⟩) := by
  refine ⟨?_, ?_, ?_⟩
  · intro g t
    apply String.ext
    show ((normalizeServerName g ++ "__") ++ camelToSnake t).data = _
    rw [String.data_append, String.data_append]
    show ((g.data.map _ ++ "__".data) ++ camelToSnakeChars t.data) = _
    rw [camelToSnakeChars_eq_flatMap,
      show ("__".data) = ['_', '_'] from rfl]
    simp [specWireName, List.append_assoc]
  · rfl
  · intro servers load s t md hnd hmem hload
    rw [initializeToolRegistry_filterMap servers load hnd]
    exact lookupA_filterMap_registry load (catalogPairs servers) s t md hnd hmem hload

/-- Witness for C2 at the repository's own catalog: the inbound wire name of
youtube/getLatestVideos resolves to its registered entry. -/
theorem wire_name_rule_and_scenario_witness :
    lookupA (initializeToolRegistry serverRegistry plainLoad)
        (mkWireName "youtube" "getLatestVideos") =
      some ⟨"youtube", "getLatestVideos", witnessMd⟩ :=
  wire_name_rule_and_scenario.2.2 serverRegistry plainLoad "youtube" "getLatestVideos"
    witnessMd (by decide) (by decide) rfl

/-- C5: a Call whose wire name is absent from the Registry throws
`Unknown tool: name` out of the handler — the MCP SDK surfaces a handler
throw as a protocol-level JSON-RPC error response, a shape distinct from the
tool-level `isError` payload — and the handler is a total function, so the
host process never crashes on such a request. -/
theorem call_unknown_tool_routing_error (registry : List (String × RegistryEntry))
    (load : String → String → Except JsErr (Option RuntimeTool))
    (toolName : String) (args : Option Json)
    (h : lookupA registry toolName = none) :
    handleCallTool registry load toolName args =
      .thrown ("Unknown tool: " ++ toolName) := by
  unfold handleCallTool
  rw [h]

/-- Witness for C5 on an empty registry. -/
theorem call_unknown_tool_routing_error_witness :
    handleCallTool [] (fun _ _ => .ok none) "alpha__missing" none =
      .thrown ("Unknown tool: " ++ "alpha__missing") :=
  call_unknown_tool_routing_error [] (fun _ _ => .ok none) "alpha__missing" none rfl

/-- C6: registry construction is a total fold in which an entry whose
metadata load throws is skipped while the loop continues: with distinct
catalog wire names the built registry is exactly the per-entry filter of the
catalog, so a single entry's failure neither aborts startup nor removes any
other entry. -/
theorem registry_partial_failure_isolation :
    ∀ servers load, (catalogWireNames servers).Nodup →
      initializeToolRegistry servers load =
        (catalogPairs servers).filterMap (fun p =>
          match load p.1 p.2 with
          | .ok md => some (mkWireName p.1 p.2, (⟨p.1, p.2, md⟩ : RegistryEntry))
          | .error _ => none) :=
  fun servers load hnd => initializeToolRegistry_filterMap servers load hnd

/-- A load that fails on exactly one catalog entry. -/
def failingLoad : String → String → Except String ToolMetadata :=
  fun s t =>
    if s = "youtube" ∧ t = "getPlaylistItems" then
      .error "Cannot find module ./servers/youtube/getPlaylistItems.js"
    else plainLoad s t

/-- Witness for C6: the repository catalog with one failing entry still
registers all the others. -/
theorem registry_partial_failure_isolation_witness :
    initializeToolRegistry serverRegistry failingLoad =
      (catalogPairs serverRegistry).filterMap (fun p =>
        match failingLoad p.1 p.2 with
        | .ok md => some (mkWireName p.1 p.2, (⟨p.1, p.2, md⟩ : RegistryEntry))
        | .error _ => none) :=
  registry_partial_failure_isolation serverRegistry failingLoad (by decide)

/-- C7: the bearer-auth state machine of the HTTP transport — no header (or
one without the `Bearer ` scheme) answers 401 with a JSON-RPC error body, a
`Bearer` header whose token differs from the configured key answers 403, a
matching token proceeds to the dispatcher on `POST /mcp`, and `GET /health`
answers 200 regardless of any Authorization header. -/
theorem bearer_auth_http_behaviour :
    (∀ (auth : Option String) key n, routeHttp "GET" "/health" auth key n =
        .response 200 (.health "ok" n)) ∧
    (∀ method key n, routeHttp method "/mcp" none key n =
        .response 401 (.rpcErr ⟨-32001,
          "Missing or invalid Authorization header. Expected: Bearer <token>"⟩)) ∧
    (∀ method key n h, strStartsWith h "Bearer " = false →
      routeHttp method "/mcp" (some h) key n =
        .response 401 (.rpcErr ⟨-32001,
          "Missing or invalid Authorization header. Expected: Bearer <token>"⟩)) ∧
    (∀ method key n h, strStartsWith h "Bearer " = true → h.drop 7 ≠ key →
      routeHttp method "/mcp" (some h) key n =
        .response 403 (.rpcErr ⟨-32002, "Invalid API key"⟩)) ∧
    (∀ key n, routeHttp "POST" "/mcp" (some ("Bearer " ++ key)) key n = .dispatched) := by
  refine ⟨?_, ?_, ?_, ?_, ?_⟩
  · intro auth key n
    rfl
  · intro method key n
    rfl
  · intro method key n h hsw
    unfold routeHttp
    rw [if_neg (by decide), if_pos rfl]
    have hb : bearerAuth (some h) key = .respond 401 ⟨-32001,
        "Missing or invalid Authorization header. Expected: Bearer <token>"⟩ := by
      simp only [bearerAuth]
      rw [if_pos hsw]
    rw [hb]
  · intro method key n h hsw hne
    unfold routeHttp
    rw [if_neg (by decide), if_pos rfl]
    have hb : bearerAuth (some h) key = .respond 403 ⟨-32002, "Invalid API key"⟩ := by
      simp only [bearerAuth]
      rw [if_neg (by simp [hsw]), if_pos hne]
    rw [hb]
  · intro key n
    unfold routeHttp
    rw [if_neg (by decide), if_pos rfl]
    have hb : bearerAuth (some ("Bearer " ++ key)) key = .proceed := by
      simp only [bearerAuth]
      rw [if_neg (by simp [startsWith_bearer]),
        if_neg (fun hc => hc (drop7_bearer key))]
    rw [hb]
    rw [if_pos rfl]

/-- Witness for C7 at a concrete mismatching token. -/
theorem bearer_auth_http_behaviour_witness :
    routeHttp "POST" "/mcp" (some "Bearer wrong") "secret" 5 =
      .response 403 (.rpcErr ⟨-32002, "Invalid API key"⟩) :=
  bearer_auth_http_behaviour.2.2.2.1 "POST" "secret" 5 "Bearer wrong"
    (by decide) (by decide)

/-- C8: the HTTP entry point exits fatally (code 1) before starting the
server whenever `MCP_API_KEY` is unset or empty, and reaches
`startMcpServer` only with a nonempty key. -/
theorem missing_api_key_fatal :
    mainStartup none = .fatalExit 1 ∧
    mainStartup (some "") = .fatalExit 1 ∧
    (∀ k, k ≠ "" → mainStartup (some k) = .started) := by
  refine ⟨rfl, rfl, ?_⟩
  intro k hk
  unfold mainStartup apiKeyConfig envString
  rw [if_neg hk]

/-- Witness for C8 with a concrete nonempty key. -/
theorem missing_api_key_fatal_witness :
    mainStartup (some "secret") = .started :=
  missing_api_key_fatal.2.2 "secret" (by decide)

/-- Reduction helper: binding a successful `Except` applies the continuation. -/
theorem exBindOk {E A B : Type} (x : A) (k : A → Except E B) :
    ((Except.ok x : Except E A) >>= k) = k x := rfl

/-- Reduction helper: binding a failed `Except` keeps the failure. -/
theorem exBindErr {E A B : Type} (w : E) (k : A → Except E B) :
    ((Except.error w : Except E A) >>= k) = .error w := rfl

/-- Reduction helper: `mapError` leaves a success untouched. -/
theorem exMapErrOk {E F A : Type} (x : A) (g : E → F) :
    (Except.ok x : Except E A).mapError g = .ok x := rfl

/-- Reduction helper: `mapError` rewrites the carried error. -/
theorem exMapErrErr {E F A : Type} (w : E) (g : E → F) :
    (Except.error w : Except E A).mapError g = .error (g w) := rfl

/-- C9: errors thrown by a wrapped execute function — one that is not a
ToolError is wrapped as a non-retryable ToolError under the tool's name, a
ToolError thrown by the collaborator propagates completely unchanged
(retryable flag included), and in either case the call never reports
success. -/
theorem wrapper_error_propagation (cfg : ToolConfig) (raw vin : Json) (e : JsErr)
    (hin : cfg.input raw = .ok vin) (hexec : cfg.execute vin = .error e) :
    (∀ t m r, e = .toolErr t m r → (createTool cfg).call raw = .error e) ∧
    ((∀ t m r, e ≠ .toolErr t m r) →
      ∃ m, (createTool cfg).call raw = .error (.toolErr cfg.name m false)) ∧
    (∀ v, (createTool cfg).call raw ≠ .ok v) := by
  have hbody : toolCallBody cfg raw = .error e := by
    unfold toolCallBody
    rw [hin, exMapErrOk, exBindOk, hexec, exBindErr]
  have hcall : (createTool cfg).call raw = .error (toolCatch cfg.name e) := by
    show (toolCallBody cfg raw).mapError (toolCatch cfg.name) = _
    rw [hbody]
    rfl
  refine ⟨?_, ?_, ?_⟩
  · rintro t m r rfl
    rw [hcall]
    rfl
  · intro hne
    cases e with
    | toolErr t m r => exact absurd rfl (hne t m r)
    | zodErr issues =>
        exact ⟨"Validation failed: " ++ renderZodIssues issues, by rw [hcall]; rfl⟩
    | otherErr om =>
        cases om with
        | some m => exact ⟨m, by rw [hcall]; rfl⟩
        | none => exact ⟨"Unknown error occurred", by rw [hcall]; rfl⟩
  · intro v hv
    rw [hcall] at hv
    cases hv

/-- A tool whose execute throws a retryable ToolError, as the Composio
client does on a rate limit. -/
def c9Cfg : ToolConfig :=
  ⟨"composio_client", zodParseObject [], zodParseObject [],
   fun _ => .error (.toolErr "composio_client" "Composio rate limit exceeded. Wait before retrying." true)⟩

/-- Witness for C9: the collaborator's retryable ToolError reaches the
caller unchanged. -/
theorem wrapper_error_propagation_witness :
    (createTool c9Cfg).call (Json.obj .nil) =
      .error (.toolErr "composio_client"
        "Composio rate limit exceeded. Wait before retrying." true) :=
  (wrapper_error_propagation c9Cfg (Json.obj .nil) (Json.obj .nil)
      (.toolErr "composio_client" "Composio rate limit exceeded. Wait before retrying." true)
      rfl rfl).1
    "composio_client" "Composio rate limit exceeded. Wait before retrying." true rfl

/-- C10: a Call without an `arguments` member dispatches exactly like a Call
with explicit `\x7b\x7d` — the handler passes `args || \x7b\x7d` to execute,
so the implementation is never invoked with an undefined input. -/
theorem absent_args_become_empty_object :
    (∀ registry load name,
      handleCallTool registry load name none =
        handleCallTool registry load name (some (Json.obj .nil))) ∧
    effectiveArgs none = Json.obj .nil :=
  ⟨fun _ _ _ => rfl, rfl⟩

/-! ## C1 and C3: the dispatcher's actual call path -/

/-- A registry entry for the demonstration tools. -/
def demoEntry (s t : String) : RegistryEntry :=
  ⟨s, t, ⟨mkWireName s t, "demo", toolInputSchemaDoc none⟩⟩

/-- A tool whose input validator requires a number field `x` but whose
execute accepts anything. -/
def c1Cfg : ToolConfig :=
  ⟨"alpha__do_thing", zodParseObject [("x", ⟨.znumber, false⟩)], zodParseObject [],
   fun _ => .ok (.obj .nil)⟩

/-- The runtime value of the c1 tool. -/
def c1Tool : RuntimeTool := createTool c1Cfg

/-- A one-entry registry holding the c1 tool's metadata. -/
def c1Registry : List (String × RegistryEntry) :=
  [("alpha__do_thing", demoEntry "alpha" "doThing")]

/-- A loader resolving every module to the c1 tool. -/
def c1Load : String → String → Except JsErr (Option RuntimeTool) :=
  fun _ _ => .ok (some c1Tool)

/-- Counterexample to C1 as stated: calling the registered operation with
`\x7b\x7d`, which misses the required field `x`, does NOT produce a
validation error — the dispatcher invokes the raw `execute` (never the
wrapper's `call`), so the call succeeds with `isError` absent even though
the input validator rejects that input. -/
theorem dispatcher_skips_validation_counterexample :
    c1Tool.inputSchema (Json.obj .nil) =
      .error [⟨["x"], "Required"⟩] ∧
    handleCallTool c1Registry c1Load "alpha__do_thing" (some (Json.obj .nil)) =
      .ok ⟨[⟨"text", jstringify (Json.obj .nil)⟩], false, none⟩ :=
  ⟨rfl, rfl⟩

/-- C1 as amended: the Validation Wrapper's `call` entry point does raise a
non-retryable ToolError naming every missing required field; but the
Dispatcher bypasses it — it invokes the imported tool's raw `execute`, so
two tools with the same execute and different input validators dispatch
identically. -/
theorem validation_lives_in_wrapper_not_dispatcher :
    (∀ (name : String) (out : Json → Except (List ZIssue) Json)
        (exec : Json → Except JsErr Json) (fields : List (String × ZField))
        (entries : JsonObj) (f : String) (ty : ZType),
      (f, (⟨ty, false⟩ : ZField)) ∈ fields → jLookup entries f = none →
      ∃ msg, (createTool ⟨name, zodParseObject fields, out, exec⟩).call (.obj entries) =
          .error (.toolErr name msg false) ∧
        ∃ pre post, msg.data = pre ++ (f ++ ": Required").data ++ post) ∧
    (∀ registry name args (cfg₁ cfg₂ : ToolConfig),
      cfg₁.execute = cfg₂.execute →
      handleCallTool registry (fun _ _ => .ok (some (createTool cfg₁))) name args =
        handleCallTool registry (fun _ _ => .ok (some (createTool cfg₂))) name args) := by
  constructor
  · intro name out exec fields entries f ty hf hmiss
    have hiss : (⟨[f], "Required"⟩ : ZIssue) ∈ fields.filterMap (zodFieldIssue entries) := by
      apply List.mem_filterMap.mpr
      refine ⟨(f, ⟨ty, false⟩), hf, ?_⟩
      unfold zodFieldIssue
      rw [hmiss]
      rfl
    cases hfm : fields.filterMap (zodFieldIssue entries) with
    | nil => rw [hfm] at hiss; cases hiss
    | cons i0 irest =>
        rw [hfm] at hiss
        have hparse : zodParseObject fields (.obj entries) = .error (i0 :: irest) := by
          show (match List.filterMap (zodFieldIssue entries) fields with
                | [] => Except.ok
                    (Json.obj (listToJsonObj (List.filterMap (zodKeepField entries) fields)))
                | issues => Except.error issues) = Except.error (i0 :: irest)
          rw [hfm]
        have hbody : toolCallBody ⟨name, zodParseObject fields, out, exec⟩
            (.obj entries) = .error (.zodErr (i0 :: irest)) := by
          unfold toolCallBody
          rw [show (⟨name, zodParseObject fields, out, exec⟩ : ToolConfig).input =
            zodParseObject fields from rfl, hparse, exMapErrErr,
            exBindErr]
        refine ⟨"Validation failed: " ++ renderZodIssues (i0 :: irest), ?_, ?_⟩
        · show (toolCallBody _ _).mapError _ = _
          rw [hbody]
          rfl
        · have hmem : (joinDots [f] ++ ": " ++ "Required") ∈
              (i0 :: irest).map (fun i => joinDots i.path ++ ": " ++ i.message) := by
            have := List.mem_map_of_mem
              (fun i : ZIssue => joinDots i.path ++ ": " ++ i.message) hiss
            simpa using this
          obtain ⟨pre, post, hpp⟩ :=
            joinComma_mem_infix (joinDots [f] ++ ": " ++ "Required") _ hmem
          refine ⟨"Validation failed: ".data ++ pre, post, ?_⟩
          rw [show ("Validation failed: " ++ renderZodIssues (i0 :: irest)).data =
            "Validation failed: ".data ++ (renderZodIssues (i0 :: irest)).data from
            String.data_append _ _]
          rw [show renderZodIssues (i0 :: irest) =
            joinComma ((i0 :: irest).map (fun i => joinDots i.path ++ ": " ++ i.message))
            from rfl]
          rw [hpp]
          rw [show (joinDots [f] ++ ": " ++ "Required").data =
              (f ++ ": Required").data from by
            rw [show joinDots [f] = f from rfl, String.data_append, String.data_append,
              String.data_append, show (": ").data = [':', ' '] from rfl,
              show ("Required").data = ['R', 'e', 'q', 'u', 'i', 'r', 'e', 'd'] from rfl,
              show (": Required").data =
                [':', ' ', 'R', 'e', 'q', 'u', 'i', 'r', 'e', 'd'] from rfl]
            simp]
          simp [List.append_assoc]
  · intro registry name args cfg₁ cfg₂ hexec
    unfold handleCallTool
    cases hlk : lookupA registry name with
    | none => rfl
    | some entry =>
        have h1 : (createTool cfg₁).execute = cfg₂.execute := hexec
        have h2 : (createTool cfg₂).execute = cfg₂.execute := rfl
        simp only [exBindOk, h1, h2]

/-- Witness for the amended C1: the c1 tool's own `call` on `\x7b\x7d`. -/
theorem validation_lives_in_wrapper_witness :
    ∃ msg, (createTool ⟨"alpha__do_thing", zodParseObject [("x", ⟨.znumber, false⟩)],
        zodParseObject [], fun _ => .ok (.obj .nil)⟩).call (.obj .nil) =
        .error (.toolErr "alpha__do_thing" msg false) ∧
      ∃ pre post, msg.data = pre ++ ("x" ++ ": Required").data ++ post :=
  validation_lives_in_wrapper_not_dispatcher.1 "alpha__do_thing"
    (zodParseObject []) (fun _ => .ok (.obj .nil)) [("x", ⟨.znumber, false⟩)]
    .nil "x" .znumber (by simp) rfl

/-- A tool whose execute succeeds with a small object result. -/
def c3Cfg : ToolConfig :=
  ⟨"alpha__do_thing", zodParseObject [], zodParseObject [("r", ⟨.znumber, false⟩)],
   fun _ => .ok (.obj (.cons "r" (.num 1) .nil))⟩

/-- The runtime value of the c3 tool. -/
def c3Tool : RuntimeTool := createTool c3Cfg

/-- A one-entry registry for the c3 tool. -/
def c3Registry : List (String × RegistryEntry) :=
  [("alpha__do_thing", demoEntry "alpha" "doThing")]

/-- A loader resolving every module to the c3 tool. -/
def c3Load : String → String → Except JsErr (Option RuntimeTool) :=
  fun _ _ => .ok (some c3Tool)

/-- Counterexample to C3 as stated: a successful Call's response has
`structuredContent` equal to `none` — the handlers return only the text
content and never attach the structured copy the claim asserts. -/
theorem success_response_no_structured_copy_counterexample :
    handleCallTool c3Registry c3Load "alpha__do_thing" (some (.obj .nil)) =
      .ok ⟨[⟨"text", jstringify (.obj (.cons "r" (.num 1) .nil))⟩], false, none⟩ ∧
    (⟨[⟨"text", jstringify (.obj (.cons "r" (.num 1) .nil))⟩], false, none⟩ :
        CallToolResult).structuredContent = none :=
  ⟨rfl, rfl⟩

/-- C3 as amended: every successful Call of a registered operation responds
with `content: [{type: "text", text: JSON.stringify(result, null, 2)}]`,
the text parses back to exactly the operation's result value, and the
response carries no structured copy. -/
theorem call_success_serialization (registry : List (String × RegistryEntry))
    (load : String → String → Except JsErr (Option RuntimeTool))
    (name : String) (args : Option Json) (entry : RegistryEntry)
    (tool : RuntimeTool) (result : Json)
    (hlk : lookupA registry name = some entry)
    (hload : load entry.serverName entry.toolName = .ok (some tool))
    (hexec : tool.execute (effectiveArgs args) = .ok result) :
    handleCallTool registry load name args =
      .ok ⟨[⟨"text", jstringify result⟩], false, none⟩ ∧
    parseJson (jstringify result) = some result := by
  constructor
  · unfold handleCallTool
    rw [hlk]
    show (match (load entry.serverName entry.toolName >>= fun mtool => _ :
        Except JsErr CallToolResult) with
      | .ok res => HandlerOutcome.ok res
      | .error e => _) = _
    rw [hload, exBindOk]
    show (match (tool.execute (effectiveArgs args) >>= fun result => _ :
        Except JsErr CallToolResult) with
      | .ok res => HandlerOutcome.ok res
      | .error e => _) = _
    rw [hexec, exBindOk]
    rfl
  · exact parseJson_jstringify result

/-- Witness for the amended C3, with absent arguments. -/
theorem call_success_serialization_witness :
    handleCallTool c3Registry c3Load "alpha__do_thing" none =
      .ok ⟨[⟨"text", jstringify (.obj (.cons "r" (.num 1) .nil))⟩], false, none⟩ ∧
    parseJson (jstringify (.obj (.cons "r" (.num 1) .nil))) =
      some (.obj (.cons "r" (.num 1) .nil)) :=
  call_success_serialization c3Registry c3Load "alpha__do_thing" none
    (demoEntry "alpha" "doThing") c3Tool (.obj (.cons "r" (.num 1) .nil))
    rfl rfl rfl

/-! ## C4: the registered schema is self-contained -/

/-- C4: when the Zod-to-JSON-Schema conversion produces a document keyed by
a `$ref` into `definitions` (as the named `zodToJsonSchema` call does), the
translator dereferences and inlines the referenced definition — dropping
`$schema` — before the entry is registered, and the stored `inputSchema` is
`$ref`-free whenever the inlined definition is; the metadata built by
`loadToolMetadata` stores exactly this translation. -/
theorem schema_flattening_self_contained
    (fullSchema defs d : Json) (k : String)
    (hdefs : jGet fullSchema "definitions" = some defs)
    (hdtruthy : jTruthy defs = true)
    (href : jGet fullSchema "$ref" = some (.str ("#/definitions/" ++ k)))
    (hk : jGet defs k = some d)
    (hktruthy : jTruthy d = true)
    (hfree : refFreeJ d = true) :
    flattenSchemaDoc fullSchema = jDelete d "$schema" ∧
    refFreeJ (flattenSchemaDoc fullSchema) = true ∧
    (∀ s t info md, loadToolMetadataModel s t (some info) = .ok md →
      md.inputSchema = toolInputSchemaDoc info.convertedSchema) ∧
    toolInputSchemaDoc (some fullSchema) = jDelete d "$schema" := by
  have hkey : replaceOnce "#/definitions/" "" ("#/definitions/" ++ k) = k := by
    apply String.ext
    show replaceOnceChars ("#/definitions/".data) [] (("#/definitions/" ++ k).data) = k.data
    rw [String.data_append,
      show ("#/definitions/".data) =
        '#' :: ['/', 'd', 'e', 'f', 'i', 'n', 'i', 't', 'i', 'o', 'n', 's', '/'] from rfl]
    exact replaceOnceChars_exact '#'
      ['/', 'd', 'e', 'f', 'i', 'n', 'i', 't', 'i', 'o', 'n', 's', '/'] k.data
  have hne : ((("#/definitions/" ++ k) == "") : Bool) = false := by
    apply beq_eq_false_iff_ne.mpr
    intro hc
    have hd := congrArg String.data hc
    rw [String.data_append,
      show ("#/definitions/".data) =
        '#' :: ['/', 'd', 'e', 'f', 'i', 'n', 'i', 't', 'i', 'o', 'n', 's', '/'] from rfl,
      show ("".data) = ([] : List Char) from rfl] at hd
    cases hd
  have hflat : flattenSchemaDoc fullSchema = jDelete d "$schema" := by
    unfold flattenSchemaDoc
    rw [hdefs, href,
      if_pos (by
        simp only [jTruthyOpt, hdtruthy, Bool.true_and]
        rw [show jTruthy (.str ("#/definitions/" ++ k)) =
          !((("#/definitions/" ++ k) == "")) from rfl, hne]
        rfl)]
    show (match jGet defs (replaceOnce "#/definitions/" "" ("#/definitions/" ++ k)) with
          | some d => if jTruthy d then jDelete d "$schema" else jDelete fullSchema "$schema"
          | none => jDelete fullSchema "$schema") = jDelete d "$schema"
    rw [hkey, hk]
    show (if jTruthy d then jDelete d "$schema" else jDelete fullSchema "$schema") =
      jDelete d "$schema"
    rw [if_pos hktruthy]
  refine ⟨hflat, ?_, ?_, ?_⟩
  · rw [hflat]
    exact refFreeJ_jDelete d "$schema" hfree
  · intro s t info md hmd
    unfold loadToolMetadataModel at hmd
    cases hmd
    rfl
  · exact hflat

/-- The converted document a named `zodToJsonSchema` call produces. -/
def c4Defs : Json :=
  .obj (.cons "t_input" (.obj (.cons "type" (.str "object") .nil)) .nil)

/-- A full conversion output with `$schema`, `$ref` and `definitions`. -/
def c4Full : Json :=
  .obj (.cons "$ref" (.str "#/definitions/t_input")
    (.cons "definitions" c4Defs
      (.cons "$schema" (.str "http://json-schema.org/draft-07/schema#") .nil)))

/-- Witness for C4 on the concrete converted document. -/
theorem schema_flattening_self_contained_witness :
    flattenSchemaDoc c4Full =
      jDelete (.obj (.cons "type" (.str "object") .nil)) "$schema" :=
  (schema_flattening_self_contained c4Full c4Defs
    (.obj (.cons "type" (.str "object") .nil)) "t_input"
    rfl rfl rfl rfl rfl rfl).1

end DevrkMcp
